import Mathlib

/-!
# MDL SDK examples: distilling, DXR viewer options and name helpers

A shallow embedding of the client-side logic of

* `examples/mdl_sdk/distilling/example_distilling.cpp`
  (`setup_target_material`, `bake_target_material_inputs`),
* `examples/mdl_sdk/dxr/options.h` (`parse_options`),
* `examples/mdl_sdk/mdl_browser/mdl_qt_plugin/utilities/mdl_helper.cpp`
  (`Mdl_helper::qualified_to_simple_name`),
* `examples/mdl_sdk/execution_glsl/example_execution_glsl.cpp` and
  `examples/mdl_sdk/compilation/example_compilation.cpp`
  (`get_module_name`, `get_material_name`).

`std::string` is embedded as `String` (a sequence of characters), `size_t` as a
natural number below `2 ^ 64` with wrap-around arithmetic, and the calls into
the closed SDK are embedded as fields of an explicit record of functions.
-/

set_option autoImplicit false

namespace Mdl

/-! ## Data model of `example_distilling.cpp` -/

/-- Modelled from the spec: the enumeration
`mi::neuraylib::IFunction_definition::Semantics` lives in an SDK header that is
not among the sources.  The constructors are the enumerators that
`example_distilling.cpp` names; `DS_OTHER` stands for every other enumerator. -/
inductive Semantics where
  | DS_INTRINSIC_DF_DIFFUSE_REFLECTION_BSDF
  | DS_INTRINSIC_DF_SIMPLE_GLOSSY_BSDF
  | DS_INTRINSIC_DF_FRESNEL_LAYER
  | DS_INTRINSIC_DF_CUSTOM_CURVE_LAYER
  | DS_INTRINSIC_DF_WEIGHTED_LAYER
  | DS_INTRINSIC_DF_NORMALIZED_MIX
  | DS_INTRINSIC_DF_MICROFACET_GGX_VCAVITIES_BSDF
  | DS_OTHER (code : Nat)
  deriving DecidableEq, Repr

/-- The two functions a `Material_parameter::remap_func` pointer is ever set to
(a null pointer is `none` in `Material_parameter`). -/
inductive Remap_func where
  | remap_normal
  | rough_to_gloss
  deriving DecidableEq, Repr

/-- Embedding of `struct Material_parameter`: `V` is the type of SDK data values
(`mi::IData`), `T` the type of canvases (`mi::neuraylib::ICanvas`); a null
handle is `none`. -/
structure Material_parameter (V T : Type) where
  value : Option V
  texture : Option T
  value_type : String
  bake_path : String
  remap_func : Option Remap_func
  deriving DecidableEq, Repr

/-- Default constructor `Material_parameter()`. -/
def Material_parameter.default (V T : Type) : Material_parameter V T :=
  { value := none, texture := none, value_type := "", bake_path := "", remap_func := none }

/-- Constructor `Material_parameter(value_type, func = nullptr)`. -/
def Material_parameter.mk_typed (V T : Type) (value_type : String)
    (func : Option Remap_func) : Material_parameter V T :=
  { value := none, texture := none, value_type := value_type, bake_path := "",
    remap_func := func }

/-- Embedding of `typedef std::map<std::string, Material_parameter> Material`:
the entries in increasing key order, as the map iterates them. -/
abbrev Material (V T : Type) := List (String × Material_parameter V T)

/-- The keys of a material map, in iteration order. -/
def Material.keys {V T : Type} (m : Material V T) : List String :=
  m.map Prod.fst

/-- Embedding of `out_material[k]` used as an lvalue that is then changed by `f`:
`operator[]` finds the entry of `k`, or inserts a default-constructed parameter
at the place its key belongs, and `f` is applied to the referenced parameter. -/
def Material.modify {V T : Type} (f : Material_parameter V T → Material_parameter V T)
    (k : String) : Material V T → Material V T
  | [] => [(k, f (Material_parameter.default V T))]
  | (k', p) :: rest =>
    if k = k' then (k', f p) :: rest
    else if k.data < k'.data then (k, f (Material_parameter.default V T)) :: (k', p) :: rest
    else (k', p) :: Material.modify f k rest

/-- The map after `out_material[k]` has been evaluated (the entry exists). -/
def Material.subscript {V T : Type} (k : String) (m : Material V T) : Material V T :=
  Material.modify id k m

/-- The parameter stored under `k`, the default-constructed one when absent; the
search follows the key order as the search of the map does. -/
def Material.get {V T : Type} (k : String) : Material V T → Material_parameter V T
  | [] => Material_parameter.default V T
  | (k', p) :: rest =>
    if k = k' then p
    else if k.data < k'.data then Material_parameter.default V T
    else Material.get k rest

/-- Embedding of `out_material[k] = p`. -/
def Material.assign {V T : Type} (k : String) (p : Material_parameter V T)
    (m : Material V T) : Material V T :=
  Material.modify (fun _ => p) k m

/-- Embedding of `out_material[k].bake_path = path`. -/
def Material.set_bake_path {V T : Type} (k : String) (path : String)
    (m : Material V T) : Material V T :=
  Material.modify (fun p => { p with bake_path := path }) k m

/-- Embedding of `out_material[k].value = v`. -/
def Material.set_value {V T : Type} (k : String) (v : V)
    (m : Material V T) : Material V T :=
  Material.modify (fun p => { p with value := some v }) k m

/-- The calls into the SDK that `setup_target_material` makes on the compiled
material `cm` and the transaction; `C` is the type of call handles
(`IExpression_direct_call`, null included).

* `lookup_call path parent` is `lookup_call(path, cm, parent)`, with
  `parent = none` for the two-argument call;
* `get_call_semantic c` is `get_call_semantic(transaction, c)`;
* `has_cutout_opacity` is
  `cm->lookup_sub_expression("geometry.cutout_opacity")` being a valid interface;
* `create_value type x` is `create_value(transaction, type, x)` for the literal
  `x` (`0` and `1` for `0.0f` and `1.0f`, `mi::Color(0.0f)` is `"Color"`, `0`). -/
structure Distiller_sdk (C V : Type) where
  lookup_call : String → Option C → C
  get_call_semantic : C → Semantics
  has_cutout_opacity : Bool
  create_value : String → Int → V

/-- The local variables of the `ue4` / `transmissive_pbr` branch of
`setup_target_material` together with the material being filled. -/
structure Walk (C V T : Type) where
  out_material : Material V T
  parent_call : C
  semantic : Semantics
  path_prefix : String

open Semantics

/-- Lines 192-200: the parameters and bake paths of the `diffuse` model. -/
def setup_diffuse {V T : Type} (m : Material V T) : Material V T :=
  let m := m.assign "color" (Material_parameter.mk_typed V T "Rgb_fp" none)
  let m := m.assign "roughness" (Material_parameter.mk_typed V T "Float32" none)
  let m := m.assign "normal"
    (Material_parameter.mk_typed V T "Float32<3>" (some Remap_func.remap_normal))
  let m := m.set_bake_path "color" "surface.scattering.tint"
  let m := m.set_bake_path "roughness" "surface.scattering.roughness"
  m.set_bake_path "normal" "geometry.normal"

/-- Lines 206-211: the parameters of the `diffuse_glossy` model. -/
def setup_diffuse_glossy_params {V T : Type} (m : Material V T) : Material V T :=
  let m := m.assign "diffuse_color" (Material_parameter.mk_typed V T "Rgb_fp" none)
  let m := m.assign "glossy_color" (Material_parameter.mk_typed V T "Rgb_fp" none)
  let m := m.assign "glossy_roughness" (Material_parameter.mk_typed V T "Float32" none)
  let m := m.assign "glossy_weight" (Material_parameter.mk_typed V T "Float32" none)
  let m := m.assign "ior" (Material_parameter.mk_typed V T "Float32" none)
  m.assign "normal"
    (Material_parameter.mk_typed V T "Float32<3>" (some Remap_func.remap_normal))

/-- Lines 217-236: the `switch(semantic)` of the `diffuse_glossy` model. -/
def setup_diffuse_glossy_switch {V T : Type} (semantic : Semantics)
    (m : Material V T) : Material V T :=
  match semantic with
  | DS_INTRINSIC_DF_DIFFUSE_REFLECTION_BSDF =>
    m.set_bake_path "diffuse_color" "surface.scattering.tint"
  | DS_INTRINSIC_DF_SIMPLE_GLOSSY_BSDF =>
    let m := m.set_bake_path "glossy_color" "surface.scattering.tint"
    m.set_bake_path "glossy_roughness" "surface.scattering.roughness_u"
  | DS_INTRINSIC_DF_FRESNEL_LAYER =>
    let m := m.set_bake_path "diffuse_color" "surface.scattering.base.tint"
    let m := m.set_bake_path "glossy_color" "surface.scattering.layer.tint"
    let m := m.set_bake_path "glossy_roughness" "surface.scattering.layer.roughness_u"
    let m := m.set_bake_path "glossy_weight" "surface.scattering.weight"
    m.set_bake_path "ior" "surface.scattering.ior"
  | _ => m

/-- Lines 203-238: the `diffuse_glossy` model. -/
def setup_diffuse_glossy {V T : Type} (semantic : Semantics)
    (m : Material V T) : Material V T :=
  let m := setup_diffuse_glossy_params m
  let m := setup_diffuse_glossy_switch semantic m
  m.set_bake_path "normal" "geometry.normal"

/-- Lines 242-252: the parameters shared by `ue4` and `transmissive_pbr`. -/
def setup_ue4_params {V T : Type} (m : Material V T) : Material V T :=
  let m := m.assign "base_color" (Material_parameter.mk_typed V T "Rgb_fp" none)
  let m := m.assign "metallic" (Material_parameter.mk_typed V T "Float32" none)
  let m := m.assign "specular" (Material_parameter.mk_typed V T "Float32" none)
  let m := m.assign "roughness" (Material_parameter.mk_typed V T "Float32" none)
  let m := m.assign "normal"
    (Material_parameter.mk_typed V T "Float32<3>" (some Remap_func.remap_normal))
  let m := m.assign "clearcoat_weight" (Material_parameter.mk_typed V T "Float32" none)
  let m := m.assign "clearcoat_roughness" (Material_parameter.mk_typed V T "Float32" none)
  let m := m.assign "clearcoat_normal"
    (Material_parameter.mk_typed V T "Float32<3>" (some Remap_func.remap_normal))
  m.assign "opacity" (Material_parameter.mk_typed V T "Float32" none)

/-- Lines 262-277: the parameters and fixed bake paths that only
`transmissive_pbr` has. -/
def setup_transmissive_params {V T : Type} (m : Material V T) : Material V T :=
  let m := m.assign "anisotropy" (Material_parameter.mk_typed V T "Float32" none)
  let m := m.assign "anisotropy_rotation" (Material_parameter.mk_typed V T "Float32" none)
  let m := m.assign "transparency" (Material_parameter.mk_typed V T "Float32" none)
  let m := m.assign "transmission_color" (Material_parameter.mk_typed V T "Rgb_fp" none)
  let m := m.assign "attenuation_color" (Material_parameter.mk_typed V T "Rgb_fp" none)
  let m := m.assign "attenuation_distance" (Material_parameter.mk_typed V T "Float32" none)
  let m := m.assign "subsurface_color" (Material_parameter.mk_typed V T "Rgb_fp" none)
  let m := m.assign "volume_ior" (Material_parameter.mk_typed V T "Rgb_fp" none)
  let m := m.set_bake_path "attenuation_color"
    "volume.absorption_coefficient.s.v.attenuation"
  let m := m.set_bake_path "subsurface_color"
    "volume.absorption_coefficient.s.v.subsurface"
  let m := m.set_bake_path "attenuation_distance"
    "volume.scattering_coefficient.s.v.distance"
  m.set_bake_path "volume_ior" "ior"

/-- The three statements that end every chaining block: look the sub-call up
under the current parent, read its semantic, extend the path. -/
def Walk.chain {C V T : Type} (sdk : Distiller_sdk C V) (path : String) (suffix : String)
    (w : Walk C V T) : Walk C V T :=
  let parent := sdk.lookup_call path (some w.parent_call)
  { w with
    parent_call := parent
    semantic := sdk.get_call_semantic parent
    path_prefix := w.path_prefix ++ suffix }

/-- Lines 281-294: the clearcoat layer. -/
def ue4_clearcoat {C V T : Type} (sdk : Distiller_sdk C V) (w : Walk C V T) : Walk C V T :=
  if w.semantic = DS_INTRINSIC_DF_CUSTOM_CURVE_LAYER then
    let m := w.out_material
    let m := m.set_bake_path "clearcoat_weight" ( w.path_prefix ++ "weight")
    let m := m.set_bake_path "clearcoat_roughness" ( w.path_prefix ++ "layer.roughness_u")
    let m := m.set_bake_path "clearcoat_normal" ( w.path_prefix ++ "normal")
    Walk.chain sdk "base" "base." { w with out_material := m }
  else w

/-- Lines 299-308: the weighted layer carrying the under-clearcoat normal. -/
def ue4_weighted_layer {C V T : Type} (sdk : Distiller_sdk C V) (w : Walk C V T) :
    Walk C V T :=
  if w.semantic = DS_INTRINSIC_DF_WEIGHTED_LAYER then
    let m := w.out_material.set_bake_path "normal" ( w.path_prefix ++ "normal")
    Walk.chain sdk "layer" "layer." { w with out_material := m }
  else w

/-- Lines 311-334: the normalized mix of the metallic and dielectric parts. -/
def ue4_metallic_mix {C V T : Type} (sdk : Distiller_sdk C V) (is_transmissive_pbr : Bool)
    (w : Walk C V T) : Walk C V T :=
  if w.semantic = DS_INTRINSIC_DF_NORMALIZED_MIX then
    let m := w.out_material
    let m := m.set_bake_path "metallic" ( w.path_prefix ++ "components.1.weight")
    let m :=
      if is_transmissive_pbr then
        let m := m.set_bake_path "roughness"
          ( w.path_prefix ++ "components.1.component.roughness_u.s.r.roughness")
        let m := m.set_bake_path "anisotropy"
          ( w.path_prefix ++ "components.1.component.roughness_u.s.r.anisotropy")
        m.set_bake_path "anisotropy_rotation"
          ( w.path_prefix ++ "components.1.component.roughness_u.s.r.rotation")
      else
        m.set_bake_path "roughness" ( w.path_prefix ++ "components.1.component.roughness_u")
    let m := m.set_bake_path "base_color" ( w.path_prefix ++ "components.1.component.tint")
    Walk.chain sdk "components.0.component" "components.0.component." { w with out_material := m }
  else w

/-- Lines 335-354: the custom-curve layer with the specular parameters. -/
def ue4_specular_layer {C V T : Type} (sdk : Distiller_sdk C V) (is_transmissive_pbr : Bool)
    (w : Walk C V T) : Walk C V T :=
  if w.semantic = DS_INTRINSIC_DF_CUSTOM_CURVE_LAYER then
    let m := w.out_material
    let m := m.set_bake_path "specular" ( w.path_prefix ++ "weight")
    let m :=
      if is_transmissive_pbr then
        let m := m.set_bake_path "roughness"
          ( w.path_prefix ++ "layer.roughness_u.s.r.roughness")
        let m := m.set_bake_path "anisotropy"
          ( w.path_prefix ++ "layer.roughness_u.s.r.anisotropy")
        m.set_bake_path "anisotropy_rotation"
          ( w.path_prefix ++ "layer.roughness_u.s.r.rotation")
      else
        m.set_bake_path "roughness" ( w.path_prefix ++ "layer.roughness_u")
    Walk.chain sdk "base" "base." { w with out_material := m }
  else w

/-- Lines 355-365: the transmission mix; `check_success(is_transmissive_pbr)`
ends the program (`none`) for the `ue4` model. -/
def ue4_transmission_mix {C V T : Type} (sdk : Distiller_sdk C V)
    (is_transmissive_pbr : Bool) (w : Walk C V T) : Option (Walk C V T) :=
  if w.semantic = DS_INTRINSIC_DF_NORMALIZED_MIX then
    if is_transmissive_pbr then
      let m := w.out_material
      let m := m.set_bake_path "transparency" ( w.path_prefix ++ "components.1.weight")
      let m := m.set_bake_path "transmission_color"
        ( w.path_prefix ++ "components.1.component.tint")
      some (Walk.chain sdk "components.0.component" "components.0.component." { w with out_material := m })
    else none
  else some w

/-- One `if(out_material[k].bake_path.empty()) out_material[k].bake_path = path`:
the test itself goes through `operator[]`. -/
def Material.set_bake_path_if_empty {V T : Type} (k : String) (path : String)
    (m : Material V T) : Material V T :=
  let m := m.subscript k
  if (m.get k).bake_path = "" then m.set_bake_path k path else m

/-- Lines 366-381: the leaf BSDF. -/
def ue4_leaf {C V T : Type} (sdk : Distiller_sdk C V) (w : Walk C V T) : Walk C V T :=
  if w.semantic = DS_INTRINSIC_DF_MICROFACET_GGX_VCAVITIES_BSDF then
    let m := w.out_material
    let m := m.subscript "metallic"
    let m :=
      if (m.get "metallic").bake_path = "" then
        m.set_value "metallic" (sdk.create_value "Float32" 1)
      else m
    let m := m.set_bake_path_if_empty "roughness" ( w.path_prefix ++ "roughness_u")
    let m := m.set_bake_path_if_empty "base_color" ( w.path_prefix ++ "tint")
    { w with out_material := m }
  else if w.semantic = DS_INTRINSIC_DF_DIFFUSE_REFLECTION_BSDF then
    let m := w.out_material.set_bake_path_if_empty "base_color" ( w.path_prefix ++ "tint")
    { w with out_material := m }
  else w

/-- Lines 384-387: the cutout opacity. -/
def ue4_cutout {C V T : Type} (sdk : Distiller_sdk C V) (m : Material V T) : Material V T :=
  if sdk.has_cutout_opacity then m.set_bake_path "opacity" "geometry.cutout_opacity" else m

/-- Lines 239-388: the `ue4` and `transmissive_pbr` models. -/
def setup_ue4 {C V T : Type} (sdk : Distiller_sdk C V) (is_transmissive_pbr : Bool)
    (parent_call : C) (semantic : Semantics) (m : Material V T) : Option (Material V T) :=
  let m := setup_ue4_params m
  let m := if is_transmissive_pbr then setup_transmissive_params m else m
  let w : Walk C V T :=
    { out_material := m, parent_call := parent_call, semantic := semantic,
      path_prefix := "surface.scattering." }
  let w := ue4_clearcoat sdk w
  let w := ue4_weighted_layer sdk w
  let w := ue4_metallic_mix sdk is_transmissive_pbr w
  let w := ue4_specular_layer sdk is_transmissive_pbr w
  match ue4_transmission_mix sdk is_transmissive_pbr w with
  | none => none
  | some w =>
    let w := ue4_leaf sdk w
    some (ue4_cutout sdk w.out_material)

/-- Lines 392-399: the parameters of the `specular_glossy` model. -/
def setup_specular_glossy_params {V T : Type} (m : Material V T) : Material V T :=
  let m := m.assign "base_color" (Material_parameter.mk_typed V T "Rgb_fp" none)
  let m := m.assign "f0" (Material_parameter.mk_typed V T "Rgb_fp" none)
  let m := m.assign "f0_color" (Material_parameter.mk_typed V T "Rgb_fp" none)
  let m := m.assign "f0_refl" (Material_parameter.mk_typed V T "Float32" none)
  let m := m.assign "f0_weight" (Material_parameter.mk_typed V T "Float32" none)
  let m := m.assign "glossiness"
    (Material_parameter.mk_typed V T "Float32" (some Remap_func.rough_to_gloss))
  let m := m.assign "opacity" (Material_parameter.mk_typed V T "Float32" none)
  m.assign "normal_map"
    (Material_parameter.mk_typed V T "Float32<3>" (some Remap_func.remap_normal))

/-- Lines 404-432: the `switch(semantic)` of the `specular_glossy` model. -/
def setup_specular_glossy_switch {C V T : Type} (sdk : Distiller_sdk C V)
    (semantic : Semantics) (m : Material V T) : Material V T :=
  match semantic with
  | DS_INTRINSIC_DF_DIFFUSE_REFLECTION_BSDF =>
    let m := m.set_bake_path "base_color" "surface.scattering.tint"
    let m := m.set_value "f0_weight" (sdk.create_value "Float32" 0)
    m.set_value "f0_color" (sdk.create_value "Color" 0)
  | DS_INTRINSIC_DF_MICROFACET_GGX_VCAVITIES_BSDF =>
    let m := m.set_bake_path "f0_color" "surface.scattering.tint"
    let m := m.set_value "f0_refl" (sdk.create_value "Float32" 1)
    let m := m.set_value "f0_weight" (sdk.create_value "Float32" 1)
    m.set_bake_path "glossiness" "surface.scattering.roughness_u"
  | DS_INTRINSIC_DF_CUSTOM_CURVE_LAYER =>
    let m := m.set_bake_path "base_color" "surface.scattering.base.tint"
    let m := m.set_bake_path "f0_color" "surface.scattering.layer.tint"
    let m := m.set_bake_path "f0_refl" "surface.scattering.normal_reflectivity"
    let m := m.set_bake_path "f0_weight" "surface.scattering.weight"
    m.set_bake_path "glossiness" "surface.scattering.layer.roughness_u"
  | _ => m

/-- Lines 389-435: the `specular_glossy` model. -/
def setup_specular_glossy {C V T : Type} (sdk : Distiller_sdk C V)
    (semantic : Semantics) (m : Material V T) : Material V T :=
  let m := setup_specular_glossy_params m
  let m := setup_specular_glossy_switch sdk semantic m
  let m := m.set_bake_path "normal_map" "geometry.normal"
  m.set_bake_path "opacity" "geometry.cutout_opacity"

/-- Embedding of `setup_target_material` (lines 173-436).  The result is `none`
when a `check_success` fails, which prints a message and calls
`exit(EXIT_FAILURE)`; otherwise it is the material map on return. -/
def setup_target_material {C V T : Type} (sdk : Distiller_sdk C V)
    (target_model : String) (out_material : Material V T) : Option (Material V T) :=
  let parent_call := sdk.lookup_call "surface.scattering" none
  let semantic := sdk.get_call_semantic parent_call
  if target_model = "diffuse" then
    if semantic = DS_INTRINSIC_DF_DIFFUSE_REFLECTION_BSDF then
      some (setup_diffuse out_material)
    else none
  else if target_model = "diffuse_glossy" then
    some (setup_diffuse_glossy semantic out_material)
  else if target_model = "ue4" ∨ target_model = "transmissive_pbr" then
    setup_ue4 sdk (decide (target_model = "transmissive_pbr")) parent_call semantic
      out_material
  else if target_model = "specular_glossy" then
    some (setup_specular_glossy sdk semantic out_material)
  else some out_material

/-! ## Baking (`bake_target_material_inputs`) -/

/-- What a remap function receives: an `mi::base::IInterface*` that is either a
canvas or a data value. -/
inductive IInterface (V T : Type) where
  | canvas (c : T)
  | data (v : V)

/-- The calls into the SDK that `bake_target_material_inputs` makes, for a fixed
compiled material, baker resource and number of samples.

* `create_baker path` tells whether `distiller_api->create_baker(cm, path, ..)`
  is a valid interface, `is_uniform path` is `baker->is_uniform()`;
* `bake_constant path value_type` is the value filled in by
  `baker->bake_constant` into a fresh value of the given type, `none` when the
  call does not return `0`;
* `bake_texture path pixel_type` is the canvas of that pixel type after
  `baker->bake_texture`, `none` when the call does not return `0`;
* `normal_to_unit`, `invert_canvas`, `invert_float` are the floating-point loops
  of `remap_normal` and `rough_to_gloss`, `as_float32 v` tells whether the value
  `v` has the interface `mi::IFloat32`. -/
structure Baker_sdk (V T : Type) where
  create_baker : String → Bool
  is_uniform : String → Bool
  bake_constant : String → String → Option V
  bake_texture : String → String → Option T
  normal_to_unit : T → T
  invert_canvas : T → T
  invert_float : V → V
  as_float32 : V → Bool

/-- Embedding of `remap_normal` (lines 127-142): only a canvas is changed. -/
def remap_normal {V T : Type} (sdk : Baker_sdk V T) : IInterface V T → IInterface V T
  | IInterface.canvas c => IInterface.canvas (sdk.normal_to_unit c)
  | IInterface.data v => IInterface.data v

/-- Embedding of `rough_to_gloss` (lines 145-169): a canvas is inverted, and so
is an `IFloat32` value. -/
def rough_to_gloss {V T : Type} (sdk : Baker_sdk V T) : IInterface V T → IInterface V T
  | IInterface.canvas c => IInterface.canvas (sdk.invert_canvas c)
  | IInterface.data v =>
    if sdk.as_float32 v then IInterface.data (sdk.invert_float v) else IInterface.data v

/-- The call `param.remap_func(x)` under `if(param.remap_func)`. -/
def apply_remap {V T : Type} (sdk : Baker_sdk V T) :
    Option Remap_func → IInterface V T → IInterface V T
  | none, x => x
  | some Remap_func.remap_normal, x => remap_normal sdk x
  | some Remap_func.rough_to_gloss, x => rough_to_gloss sdk x

/-- The value types for which the uniform branch creates a value
(lines 466-483). -/
def supported_value_type (value_type : String) : Bool :=
  decide (value_type = "Rgb_fp") || decide (value_type = "Float32<3>")
    || decide (value_type = "Float32")

/-- The value a remap function leaves behind a data handle. -/
def IInterface.to_value {V T : Type} (fallback : V) : IInterface V T → V
  | IInterface.data v => v
  | IInterface.canvas _ => fallback

/-- The canvas a remap function leaves behind a canvas handle. -/
def IInterface.to_canvas {V T : Type} (fallback : T) : IInterface V T → T
  | IInterface.canvas c => c
  | IInterface.data _ => fallback

/-- The body of the loop of `bake_target_material_inputs` (lines 452-514) for one
parameter; `none` when a `check_success` ends the program. -/
def bake_parameter {V T : Type} (sdk : Baker_sdk V T) (param : Material_parameter V T) :
    Option (Material_parameter V T) :=
  if param.bake_path = "" then some param
  else if ¬ sdk.create_baker param.bake_path then none
  else if sdk.is_uniform param.bake_path then
    if supported_value_type param.value_type then
      match sdk.bake_constant param.bake_path param.value_type with
      | none => none
      | some value =>
        let value := (apply_remap sdk param.remap_func (IInterface.data value)).to_value value
        some { param with value := some value }
    else some param
  else
    match sdk.bake_texture param.bake_path param.value_type with
    | none => none
    | some canvas =>
      let canvas :=
        (apply_remap sdk param.remap_func (IInterface.canvas canvas)).to_canvas canvas
      some { param with texture := some canvas }

/-- Embedding of `bake_target_material_inputs` (lines 440-516): the loop over the
map in iteration order; `none` when a `check_success` ends the program. -/
def bake_target_material_inputs {V T : Type} (sdk : Baker_sdk V T) :
    Material V T → Option (Material V T)
  | [] => some []
  | (k, param) :: rest =>
    match bake_parameter sdk param with
    | none => none
    | some param' =>
      match bake_target_material_inputs sdk rest with
      | none => none
      | some rest' => some ((k, param') :: rest')

/-- The key list after `operator[]` has been evaluated for `k`. -/
def insert_key (k : String) : List String → List String
  | [] => [k]
  | k' :: rest =>
    if k = k' then k' :: rest
    else if k.data < k'.data then k :: k' :: rest
    else k' :: insert_key k rest

/-- A compiled material all of whose calls have the semantic `s` and that has no
cutout opacity, with trivial handles and values. -/
def uniform_sdk (s : Semantics) : Distiller_sdk Unit Unit :=
  { lookup_call := fun _ _ => ()
    get_call_semantic := fun _ => s
    has_cutout_opacity := false
    create_value := fun _ _ => () }

/-- A baker over numeric stand-ins for values and canvases: every path can be
baked, exactly the paths starting with `surface` are uniform, constants bake to
`7`, textures to `9`, and the remap loops add `1`. -/
def sample_baker : Baker_sdk Nat Nat :=
  { create_baker := fun _ => true
    is_uniform := fun path => "surface".data.isPrefixOf path.data
    bake_constant := fun _ _ => some 7
    bake_texture := fun _ _ => some 9
    normal_to_unit := fun c => c + 1
    invert_canvas := fun c => c + 1
    invert_float := fun v => v + 1
    as_float32 := fun _ => true }

/-- A material before baking: one uniform path, one empty path, one path that is
not uniform. -/
def unbaked_sample : Material Nat Nat :=
  [("color", ⟨none, none, "Rgb_fp", "surface.scattering.tint", none⟩),
    ("ior", ⟨none, none, "Float32", "", none⟩),
    ("normal", ⟨none, none, "Float32<3>", "geometry.normal", some Remap_func.remap_normal⟩)]

/-- The material `unbaked_sample` after baking with `sample_baker`. -/
def baked_sample : Material Nat Nat :=
  [("color", ⟨some 7, none, "Rgb_fp", "surface.scattering.tint", none⟩),
    ("ior", ⟨none, none, "Float32", "", none⟩),
    ("normal", ⟨none, some 10, "Float32<3>", "geometry.normal",
      some Remap_func.remap_normal⟩)]

/-! ## `std::string` and `size_t` -/

/-- The value of `std::string::npos`, the largest `size_t`. -/
def npos : Nat := 2 ^ 64 - 1

/-- Addition of `size_t` values (wraps around). -/
def size_t_add (a b : Nat) : Nat := (a + b) % 2 ^ 64

/-- Subtraction of `size_t` values below `2 ^ 64` (wraps around). -/
def size_t_sub (a b : Nat) : Nat := (a + 2 ^ 64 - b) % 2 ^ 64

/-- The position of the first `c` in `s` counted from `i`, if any. -/
def first_index (c : Char) : List Char → Nat → Option Nat
  | [], _ => none
  | x :: xs, i => if x = c then some i else first_index c xs (i + 1)

/-- The position, counted from `i`, at which the last occurrence of `pat` in
`s` starts, if any. -/
def last_match (pat : List Char) : List Char → Nat → Option Nat
  | [], i => if pat = [] then some i else none
  | c :: cs, i =>
    match last_match pat cs (i + 1) with
    | some j => some j
    | none => if pat.isPrefixOf (c :: cs) then some i else none

/-- Embedding of `s.find_first_of(c)`. -/
def find_first_of (s : String) (c : Char) : Nat :=
  (first_index c s.data 0).getD npos

/-- Embedding of `s.find_last_of(c)`. -/
def find_last_of (s : String) (c : Char) : Nat :=
  (last_match [c] s.data 0).getD npos

/-- Embedding of `s.rfind(pat)`. -/
def rfind (s pat : String) : Nat :=
  (last_match pat.data s.data 0).getD npos

/-- Embedding of `s.substr(pos, n)`: `none` stands for the exception
`std::out_of_range`, thrown when `pos > s.size()`. -/
def substr (s : String) (pos n : Nat) : Option String :=
  if pos > s.length then none else some ⟨(s.data.drop pos).take n⟩

/-- Embedding of `std::replace(s.begin(), s.end(), a, b)`. -/
def replace_char (s : String) (a b : Char) : String :=
  ⟨s.data.map fun c => if c = a then b else c⟩

/-! ## Name helpers -/

/-- Embedding of `Mdl_helper::qualified_to_simple_name` (mdl_helper.cpp, lines
8-16); `none` stands for an exception of `substr`. -/
def qualified_to_simple_name (qualified_name : String) : Option String :=
  if qualified_name = "" then some ""
  else if qualified_name = "::" then some "::"
  else
    let pos_open_parenthesis := find_first_of qualified_name '('
    match substr qualified_name 0 pos_open_parenthesis with
    | none => none
    | some head =>
      let pos_simple_name := size_t_add (rfind head "::") 2
      substr qualified_name pos_simple_name npos

/-- Embedding of `get_module_name` (example_compilation.cpp, lines 44-48, and the
identical `Material_compiler::get_module_name`, example_execution_glsl.cpp,
lines 816-820). -/
def get_module_name (material_name : String) : Option String :=
  let p := rfind material_name "::"
  substr material_name 0 p

/-- Embedding of `Material_compiler::get_material_name`
(example_execution_glsl.cpp, lines 823-829). -/
def get_material_name (material_name : String) : Option String :=
  let p := rfind material_name "::"
  if p = npos then some material_name
  else substr material_name (size_t_add p 2) (size_t_sub material_name.length p)

/-! ## Options of the DXR example (`dxr/options.h`) -/

/-- Embedding of `class Example_dxr_options : public Base_options`
(base_application.h, lines 39-72, and options.h, lines 16-42); `F` is the type
of `float` values, `size_t` fields are natural numbers, the
`std::unordered_map` `user_options` is an association list. -/
structure Example_dxr_options (F : Type) where
  window_title : String
  window_width : Nat
  window_height : Nat
  mdl_paths : List String
  use_class_compilation : Bool
  no_gui : Bool
  hide_gui : Bool
  gui_scale : F
  ray_depth : Nat
  scene_directory : String
  output_file : String
  iterations : Nat
  user_options : List (String × String)
  scene : String
  point_light_enabled : Bool
  point_light_position : F × F × F
  point_light_intensity : F × F × F
  hdr_scale : F
  firefly_clamp : Bool
  deriving DecidableEq

/-- Embedding of `user_options[key] = value`. -/
def set_user_option (key value : String) : List (String × String) → List (String × String)
  | [] => [(key, value)]
  | (k, v) :: rest =>
    if k = key then (k, value) :: rest else (k, v) :: set_user_option key value rest

/-- Embedding of the constructors `Base_options()` and `Example_dxr_options()`;
`lit` turns the literals `0.0f` and `1.0f` into floats and `exe_folder` is the
result of `get_executable_folder()`. -/
def Example_dxr_options.init (F : Type) (lit : Int → F) (exe_folder : String) :
    Example_dxr_options F :=
  { window_title := "MDL D3D12 Example Application"
    window_width := 1280
    window_height := 720
    mdl_paths := []
    use_class_compilation := true
    no_gui := false
    hide_gui := true
    gui_scale := lit 1
    ray_depth := 6
    scene_directory := "."
    output_file := "output.png"
    iterations := 1
    user_options :=
      set_user_option "override_material" ""
        (set_user_option "environment"
          (exe_folder ++ "/content/hdri/hdrihaven_teufelsberg_inner_2k.exr") [])
    scene := exe_folder ++ "/content/gltf/sphere/sphere.gltf"
    point_light_enabled := false
    point_light_position := (lit 0, lit 0, lit 0)
    point_light_intensity := (lit 0, lit 0, lit 0)
    hdr_scale := lit 1
    firefly_clamp := true }

/-- The C library functions `atoi` and `atof` that `parse_options` calls. -/
structure Libc (F : Type) where
  atoi : String → Int
  atof : String → F

/-- The backslash character. -/
def backslash : Char := Char.ofNat 92

/-- Embedding of `s[i]` on a `std::string`: the character at `i`, and the
terminating null character at `i = s.size()`. -/
def char_at (s : String) (i : Nat) : Char :=
  s.data.getD i (Char.ofNat 0)

/-- Embedding of `is_absolute_path` (example_shared.h, lines 414-424); `windows`
tells whether `MI_PLATFORM_WINDOWS` is defined. -/
def is_absolute_path (windows : Bool) (path : String) : Bool :=
  let npath := replace_char path backslash '/'
  if windows then
    !(decide (npath.length < 2) || (char_at npath 0 != '/' && char_at npath 1 != ':'))
  else
    char_at npath 0 == '/' || char_at npath 0 != '~'

/-- The outcome of one iteration of the option loop: `next i options` continues
with the loop's `++i` after the body left the index at `i`, `stop code` is
`return false` with `return_code = code`, and `out_of_range` is a read
`argv[i]` with `i >= argv.size()`, which is undefined behaviour. -/
inductive Step_result (F : Type) where
  | next (i : Nat) (options : Example_dxr_options F)
  | stop (return_code : Nat) (options : Example_dxr_options F)
  | out_of_range
  deriving DecidableEq

/-- The value of `EXIT_SUCCESS`. -/
def EXIT_SUCCESS : Nat := 0

/-- The value of `EXIT_FAILURE`. -/
def EXIT_FAILURE : Nat := 1

/-- The body of the loop of `parse_options` (options.h, lines 107-205) at index
`i`.  The arguments are C strings, so `strcmp(opt, name) == 0` is equality with
`name`; `argc - k` is computed in `size_t`. -/
def parse_step {F : Type} (lib : Libc F) (argv : List String) (i : Nat)
    (options : Example_dxr_options F) : Step_result F :=
  let argc := argv.length
  match argv[i]? with
  | none => Step_result.out_of_range
  | some opt =>
    if char_at opt 0 = '-' then
      if opt = "--nocc" then
        Step_result.next i { options with use_class_compilation := false }
      else if opt = "--nogui" then
        Step_result.next i
          { options with
            no_gui := true
            iterations := if options.iterations = 1 then 1000 else options.iterations }
      else if opt = "--hide_gui" then
        Step_result.next i { options with hide_gui := true }
      else if opt = "--gui_scale" ∧ i < size_t_sub argc 1 then
        match argv[i + 1]? with
        | some v => Step_result.next (i + 1) { options with gui_scale := lib.atof v }
        | none => Step_result.out_of_range
      else if opt = "--res" ∧ i < size_t_sub argc 2 then
        match argv[i + 1]?, argv[i + 2]? with
        | some w, some h =>
          Step_result.next (i + 2)
            { options with
              window_width := (max (lib.atoi w) 64).toNat
              window_height := (max (lib.atoi h) 48).toNat }
        | _, _ => Step_result.out_of_range
      else if opt = "--iterations" ∧ i < size_t_sub argc 1 then
        match argv[i + 1]? with
        | some v =>
          Step_result.next (i + 1) { options with iterations := (max (lib.atoi v) 1).toNat }
        | none => Step_result.out_of_range
      else if opt = "-o" ∧ i < size_t_sub argc 1 then
        match argv[i + 1]? with
        | some v =>
          Step_result.next (i + 1)
            { options with output_file := replace_char v backslash '/' }
        | none => Step_result.out_of_range
      else if opt = "--hdr" ∧ i < size_t_sub argc 1 then
        match argv[i + 1]? with
        | some v =>
          Step_result.next (i + 1)
            { options with
              user_options :=
                set_user_option "environment" (replace_char v backslash '/')
                  options.user_options }
        | none => Step_result.out_of_range
      else if opt = "--hdr_scale" ∧ i < size_t_sub argc 1 then
        match argv[i + 1]? with
        | some v => Step_result.next (i + 1) { options with hdr_scale := lib.atof v }
        | none => Step_result.out_of_range
      else if opt = "--mat" ∧ i < size_t_sub argc 1 then
        match argv[i + 1]? with
        | some v =>
          Step_result.next (i + 1)
            { options with
              user_options := set_user_option "override_material" v options.user_options }
        | none => Step_result.out_of_range
      else if opt = "--no_firefly_clamp" then
        Step_result.next i { options with firefly_clamp := false }
      else if opt = "-h" ∨ opt = "--help" then
        Step_result.stop EXIT_SUCCESS options
      else if opt = "-l" ∧ i < size_t_sub argc 6 then
        match argv[i + 1]?, argv[i + 2]?, argv[i + 3]?, argv[i + 4]?, argv[i + 5]?,
          argv[i + 6]? with
        | some x, some y, some z, some r, some g, some b =>
          Step_result.next (i + 6)
            { options with
              point_light_enabled := true
              point_light_position := (lib.atof x, lib.atof y, lib.atof z)
              point_light_intensity := (lib.atof r, lib.atof g, lib.atof b) }
        | _, _, _, _, _, _ => Step_result.out_of_range
      else if opt = "--max_path_length" ∧ i < size_t_sub argc 1 then
        match argv[i + 1]? with
        | some v =>
          Step_result.next (i + 1)
            { options with ray_depth := (max 2 (min (lib.atoi v) 100)).toNat }
        | none => Step_result.out_of_range
      else if opt = "--mdl_path" ∧ i < size_t_sub argc 1 then
        match argv[i + 1]? with
        | some v =>
          Step_result.next (i + 1) { options with mdl_paths := options.mdl_paths ++ [v] }
        | none => Step_result.out_of_range
      else
        Step_result.stop EXIT_FAILURE options
    else
      Step_result.next i { options with scene := replace_char opt backslash '/' }

/-- The outcome of `parse_options`: `returned result code options` is a return of
`result` with `return_code = code` and the options as left behind, `out_of_range`
an out-of-bounds read of `argv` (undefined behaviour), `threw` an exception of
`substr`, `out_of_fuel` a loop cut short by the fuel of the model. -/
inductive Parse_result (F : Type) where
  | returned (result : Bool) (return_code : Nat) (options : Example_dxr_options F)
  | out_of_range
  | threw
  | out_of_fuel
  deriving DecidableEq

/-- The outcome of the option loop: `finished options` is the end of the loop
at `i >= argc`. -/
inductive Loop_result (F : Type) where
  | finished (options : Example_dxr_options F)
  | stopped (return_code : Nat) (options : Example_dxr_options F)
  | out_of_range
  | out_of_fuel
  deriving DecidableEq

/-- The loop `for (size_t i = 0; i < argc; ++i)` of `parse_options` from index
`i` on, with at most `fuel` iterations. -/
def parse_loop {F : Type} (lib : Libc F) (argv : List String) :
    Nat → Nat → Example_dxr_options F → Loop_result F
  | 0, i, options =>
    if i < argv.length then Loop_result.out_of_fuel else Loop_result.finished options
  | fuel + 1, i, options =>
    if i < argv.length then
      match parse_step lib argv i options with
      | Step_result.next i' options' => parse_loop lib argv fuel (i' + 1) options'
      | Step_result.stop code options' => Loop_result.stopped code options'
      | Step_result.out_of_range => Loop_result.out_of_range
    else Loop_result.finished options

/-- Lines 210-231 of `parse_options`: the scene path is made absolute, the scene
folder is computed and added to the MDL search paths; `cwd` is the result of
`get_working_directory()`, `none` stands for an exception of `substr`. -/
def resolve_scene {F : Type} (windows : Bool) (cwd : String)
    (options : Example_dxr_options F) : Option (Example_dxr_options F) :=
  let pos := find_last_of options.scene '/'
  if ¬ is_absolute_path windows options.scene then
    match substr options.scene 0 pos with
    | none => none
    | some subfolder =>
      let scene_directory :=
        if pos ≠ npos then cwd ++ ("/" ++ subfolder) else cwd
      some
        { options with
          scene := cwd ++ "/" ++ options.scene
          scene_directory := scene_directory
          mdl_paths := options.mdl_paths ++ [scene_directory] }
  else
    match substr options.scene 0 pos with
    | none => none
    | some scene_directory =>
      some
        { options with
          scene_directory := scene_directory
          mdl_paths := options.mdl_paths ++ [scene_directory] }

/-- Embedding of `parse_options` (options.h, lines 95-235).  `argv` is the result
of `str_split(command_line_args, ' ')`, and the empty list when the command line
is null or empty; the loop gets as much fuel as there are arguments. -/
def parse_options {F : Type} (lib : Libc F) (windows : Bool) (cwd : String)
    (argv : List String) (options : Example_dxr_options F) : Parse_result F :=
  match parse_loop lib argv argv.length 0 options with
  | Loop_result.stopped code options' => Parse_result.returned false code options'
  | Loop_result.out_of_range => Parse_result.out_of_range
  | Loop_result.out_of_fuel => Parse_result.out_of_fuel
  | Loop_result.finished options' =>
    match resolve_scene windows cwd options' with
    | none => Parse_result.threw
    | some options'' => Parse_result.returned true EXIT_SUCCESS options''

/-! ## What the usage text says about the command line -/

/-- The number of values each option takes according to the usage text of
`print_options` (options.h, lines 49-90; `--iterations` takes the number of
iterations); anything else takes none. -/
def option_arity (opt : String) : Nat :=
  if opt = "-o" then 1
  else if opt = "--res" then 2
  else if opt = "--gui_scale" then 1
  else if opt = "--hdr" then 1
  else if opt = "--hdr_scale" then 1
  else if opt = "--mdl_path" then 1
  else if opt = "--max_path_length" then 1
  else if opt = "--iterations" then 1
  else if opt = "-l" then 6
  else if opt = "--mat" then 1
  else 0

/-- The values given to the one-valued option `name` on a command line, in
command-line order: the arguments are read left to right, `pending` values of
the current option are still to come, and `collect` tells whether the current
option is `name`. -/
def scan_values (name : String) : Nat → Bool → List String → List String
  | _, _, [] => []
  | 0, _, opt :: rest => scan_values name (option_arity opt) (decide (opt = name)) rest
  | pending + 1, collect, v :: rest =>
    (if collect then [v] else []) ++ scan_values name pending collect rest

/-- The values of the option `name` on the command line `argv`. -/
def option_values (name : String) (argv : List String) : List String :=
  scan_values name 0 false argv

/-- The number written by the leading decimal digits of `s`, after `acc`. -/
def leading_digits : List Char → Nat → Nat
  | [], acc => acc
  | c :: cs, acc =>
    if 48 ≤ c.toNat ∧ c.toNat ≤ 57 then leading_digits cs (acc * 10 + (c.toNat - 48))
    else acc

/-- A C library stand-in: `atoi` reads an optional minus sign and the decimal
digits that follow, `0` when there are none; floats are not looked at. -/
def sample_libc : Libc Unit :=
  { atoi := fun s =>
      match s.data with
      | '-' :: cs => - (leading_digits cs 0 : Int)
      | cs => (leading_digits cs 0 : Int)
    atof := fun _ => () }

/-- The default options of the example started from `C:/mdl`. -/
def sample_options : Example_dxr_options Unit :=
  Example_dxr_options.init Unit (fun _ => ()) "C:/mdl"

/-- A command line of the example with a path length beyond the upper bound. -/
def sample_argv : List String :=
  ["--nogui", "--max_path_length", "250", "--mdl_path", "C:/materials"]

/-- The options after `parse_options` on `sample_argv` and `sample_options`. -/
def sample_parsed : Example_dxr_options Unit :=
  { sample_options with
    no_gui := true
    iterations := 1000
    ray_depth := 100
    mdl_paths := ["C:/materials", "C:/mdl/content/gltf/sphere"]
    scene_directory := "C:/mdl/content/gltf/sphere" }

/-- The options after `parse_options` on the single argument `C:scene.gltf`, a
drive-relative scene path. -/
def sample_flat : Example_dxr_options Unit :=
  { sample_options with
    scene := "C:scene.gltf"
    scene_directory := "C:scene.gltf"
    mdl_paths := ["C:scene.gltf"] }

/-! ## MDLE database names (`example_shared.h`) -/

/-- Embedding of `mdle_to_db_name` (example_shared.h, lines 525-542); `windows`
tells whether `MI_PLATFORM_WINDOWS` is defined. -/
def mdle_to_db_name (windows : Bool) (mdle_path : String) : String :=
  let main_db_name := "mdle::"
  let main_db_name := if windows then main_db_name ++ "/" else main_db_name
  let main_db_name := main_db_name ++ mdle_path
  let main_db_name := main_db_name ++ "::main"
  replace_char main_db_name backslash '/'

/-! # Theorems -/

/-! ## Key sets of `setup_target_material` -/

theorem keys_modify {V T : Type} (f : Material_parameter V T → Material_parameter V T)
    (k : String) (m : Material V T) :
    (Material.modify f k m).keys = insert_key k m.keys := by
  induction m with
  | nil => rfl
  | cons e rest ih =>
    obtain ⟨k', p⟩ := e
    simp only [Material.modify, Material.keys, List.map_cons, insert_key]
    split
    · rfl
    · split
      · rfl
      · simp only [List.map_cons]
        exact congrArg _ ih

@[simp] theorem keys_assign {V T : Type} (k : String) (p : Material_parameter V T)
    (m : Material V T) : (m.assign k p).keys = insert_key k m.keys :=
  keys_modify _ k m

@[simp] theorem keys_set_bake_path {V T : Type} (k path : String) (m : Material V T) :
    (m.set_bake_path k path).keys = insert_key k m.keys :=
  keys_modify _ k m

theorem keys_nil {V T : Type} : Material.keys ([] : Material V T) = [] := rfl

theorem get_modify {V T : Type} (f : Material_parameter V T → Material_parameter V T)
    (k j : String) (m : Material V T) :
    (Material.modify f k m).get j = if j = k then f (m.get j) else m.get j := by
  induction m with
  | nil =>
    by_cases hjk : j = k
    · subst hjk; simp [Material.modify, Material.get]
    · simp only [Material.modify, Material.get, hjk, if_false]
      split <;> rfl
  | cons e rest ih =>
    obtain ⟨k', p⟩ := e
    simp only [Material.modify]
    by_cases h1 : k = k'
    · subst h1
      by_cases hjk : j = k
      · subst hjk; simp [Material.get]
      · simp [Material.get, hjk]
    · simp only [h1, if_false]
      by_cases h2 : k.data < k'.data
      · simp only [h2, if_true]
        by_cases hjk : j = k
        · subst hjk
          simp [Material.get, h1, h2]
        · simp only [Material.get, hjk, if_false]
          by_cases h3 : j.data < k.data
          · have h4 : j.data < k'.data := lt_trans h3 h2
            have h5 : j ≠ k' := by
              intro h
              subst h
              exact lt_irrefl _ h4
            simp [h3, h4, h5]
          · simp [h3]
      · simp only [h2, if_false, Material.get]
        by_cases hjk : j = k
        · subst hjk
          simp [h1, h2, ih]
        · simp [hjk, ih]

@[simp] theorem get_assign {V T : Type} (k j : String) (p : Material_parameter V T)
    (m : Material V T) : (m.assign k p).get j = if j = k then p else m.get j :=
  get_modify _ k j m

@[simp] theorem get_set_bake_path {V T : Type} (k j path : String) (m : Material V T) :
    (m.set_bake_path k path).get j
      = if j = k then { m.get j with bake_path := path } else m.get j :=
  get_modify _ k j m

@[simp] theorem get_set_value {V T : Type} (k j : String) (v : V) (m : Material V T) :
    (m.set_value k v).get j
      = if j = k then { m.get j with value := some v } else m.get j :=
  get_modify _ k j m

@[simp] theorem get_subscript {V T : Type} (k j : String) (m : Material V T) :
    (m.subscript k).get j = m.get j := by
  have h := get_modify id k j m
  simp only [Material.subscript, h, id, ite_self]


theorem bake_parameter_frame {V T : Type} (sdk : Baker_sdk V T)
    (p p' : Material_parameter V T) (h : bake_parameter sdk p = some p') :
    p'.value_type = p.value_type ∧ p'.bake_path = p.bake_path ∧
    p'.remap_func = p.remap_func ∧
    (p.bake_path = "" → p' = p) ∧
    (p.bake_path ≠ "" → supported_value_type p.value_type = true →
      (sdk.is_uniform p.bake_path = true →
        (∃ v, sdk.bake_constant p.bake_path p.value_type = some v ∧
          p'.value = some ((apply_remap sdk p.remap_func (IInterface.data v)).to_value v)) ∧
        p'.texture = p.texture) ∧
      (sdk.is_uniform p.bake_path = false →
        (∃ c, sdk.bake_texture p.bake_path p.value_type = some c ∧
          p'.texture =
            some ((apply_remap sdk p.remap_func (IInterface.canvas c)).to_canvas c)) ∧
        p'.value = p.value)) := by
  unfold bake_parameter at h
  by_cases he : p.bake_path = ""
  · rw [if_pos he] at h
    simp only [Option.some.injEq] at h
    subst h
    exact ⟨rfl, rfl, rfl, fun _ => rfl, fun hne => absurd he hne⟩
  · rw [if_neg he] at h
    by_cases hb : sdk.create_baker p.bake_path = true
    · rw [if_neg (by simpa using hb)] at h
      by_cases hu : sdk.is_uniform p.bake_path = true
      · rw [if_pos hu] at h
        by_cases hs : supported_value_type p.value_type = true
        · rw [if_pos hs] at h
          cases hc : sdk.bake_constant p.bake_path p.value_type with
          | none => rw [hc] at h; exact absurd h (by simp)
          | some v =>
            rw [hc] at h
            simp only [Option.some.injEq] at h
            subst h
            refine ⟨rfl, rfl, rfl, fun h0 => absurd h0 he, fun _ _ => ⟨fun _ => ?_, fun hf => ?_⟩⟩
            · exact ⟨⟨v, rfl, rfl⟩, rfl⟩
            · rw [hu] at hf
              exact absurd hf (by decide)
        · rw [if_neg hs] at h
          simp only [Option.some.injEq] at h
          subst h
          exact ⟨rfl, rfl, rfl, fun _ => rfl, fun _ hs' => absurd hs' hs⟩
      · rw [if_neg hu] at h
        cases hc : sdk.bake_texture p.bake_path p.value_type with
        | none => rw [hc] at h; exact absurd h (by simp)
        | some c =>
          rw [hc] at h
          simp only [Option.some.injEq] at h
          subst h
          refine ⟨rfl, rfl, rfl, fun h0 => absurd h0 he, fun _ _ => ⟨fun ht => ?_, fun _ => ?_⟩⟩
          · exact absurd ht hu
          · exact ⟨⟨c, rfl, rfl⟩, rfl⟩
    · rw [if_pos (by simpa using hb)] at h
      exact absurd h (by simp)

/-- C2: a normal return of `bake_target_material_inputs` keeps the entries and
their keys in place, never changes `value_type`, `bake_path` or `remap_func`,
leaves a parameter with an empty bake path unchanged, and for a non-empty path
and a supported value type sets `value` (keeping `texture`) when the baker is
uniform and sets `texture` (keeping `value`) otherwise. -/
theorem bake_target_material_inputs_frame {V T : Type} (sdk : Baker_sdk V T)
    (m m' : Material V T) (h : bake_target_material_inputs sdk m = some m') :
    m'.keys = m.keys ∧
    List.Forall₂ (fun e e' =>
      e'.1 = e.1 ∧
      e'.2.value_type = e.2.value_type ∧ e'.2.bake_path = e.2.bake_path ∧
      e'.2.remap_func = e.2.remap_func ∧
      (e.2.bake_path = "" → e'.2 = e.2) ∧
      (e.2.bake_path ≠ "" → supported_value_type e.2.value_type = true →
        (sdk.is_uniform e.2.bake_path = true →
          (∃ v, sdk.bake_constant e.2.bake_path e.2.value_type = some v ∧
            e'.2.value =
              some ((apply_remap sdk e.2.remap_func (IInterface.data v)).to_value v)) ∧
          e'.2.texture = e.2.texture) ∧
        (sdk.is_uniform e.2.bake_path = false →
          (∃ c, sdk.bake_texture e.2.bake_path e.2.value_type = some c ∧
            e'.2.texture =
              some ((apply_remap sdk e.2.remap_func (IInterface.canvas c)).to_canvas c)) ∧
          e'.2.value = e.2.value))) m m' := by
  induction m generalizing m' with
  | nil =>
    simp only [bake_target_material_inputs, Option.some.injEq] at h
    subst h
    exact ⟨rfl, List.Forall₂.nil⟩
  | cons e rest ih =>
    obtain ⟨k, p⟩ := e
    simp only [bake_target_material_inputs] at h
    cases hp : bake_parameter sdk p with
    | none => rw [hp] at h; exact absurd h (by simp)
    | some p' =>
      rw [hp] at h
      simp only at h
      cases hr : bake_target_material_inputs sdk rest with
      | none => rw [hr] at h; exact absurd h (by simp)
      | some rest' =>
        rw [hr] at h
        simp only [Option.some.injEq] at h
        subst h
        obtain ⟨hk, hf⟩ := ih rest' hr
        refine ⟨?_, List.Forall₂.cons ⟨rfl, bake_parameter_frame sdk p p' hp⟩ hf⟩
        simp only [Material.keys, List.map_cons] at hk ⊢
        rw [hk]

/-- Witness of C2: one parameter baked to a constant, one without a bake path
and one baked to a texture. -/
theorem bake_target_material_inputs_frame_witness :
    bake_target_material_inputs sample_baker unbaked_sample = some baked_sample ∧
    baked_sample.keys = unbaked_sample.keys :=
  ⟨by decide,
    (bake_target_material_inputs_frame sample_baker unbaked_sample baked_sample
      (by decide)).1⟩

/-! ## The `diffuse` and `diffuse_glossy` models -/

/-- C3: for `diffuse`, a diffuse reflection BSDF at `surface.scattering` yields
`color`, `roughness` and `normal` with their types, bake paths and the normal
remapping (and nothing else on an empty map); any other semantic fails
`check_success`, so the function does not return. -/
theorem setup_target_material_diffuse {C V T : Type} (sdk : Distiller_sdk C V)
    (m0 : Material V T) :
    (sdk.get_call_semantic (sdk.lookup_call "surface.scattering" none)
        = DS_INTRINSIC_DF_DIFFUSE_REFLECTION_BSDF →
      ∃ m, setup_target_material sdk "diffuse" m0 = some m ∧
        m.get "color" = ⟨none, none, "Rgb_fp", "surface.scattering.tint", none⟩ ∧
        m.get "roughness" = ⟨none, none, "Float32", "surface.scattering.roughness", none⟩ ∧
        m.get "normal" = ⟨none, none, "Float32<3>", "geometry.normal",
          some Remap_func.remap_normal⟩ ∧
        (m0 = [] → m.keys = ["color", "normal", "roughness"])) ∧
    (sdk.get_call_semantic (sdk.lookup_call "surface.scattering" none)
        ≠ DS_INTRINSIC_DF_DIFFUSE_REFLECTION_BSDF →
      setup_target_material sdk "diffuse" m0 = none) := by
  constructor
  · intro hs
    refine ⟨setup_diffuse m0, ?_, ?_, ?_, ?_, ?_⟩
    · unfold setup_target_material
      simp only [if_true, hs]
    · simp [setup_diffuse, Material_parameter.mk_typed]
    · simp [setup_diffuse, Material_parameter.mk_typed]
    · simp [setup_diffuse, Material_parameter.mk_typed]
    · intro h0
      subst h0
      simp only [setup_diffuse, keys_assign, keys_set_bake_path, keys_nil]
      decide
  · intro hs
    unfold setup_target_material
    simp only [if_true, hs, if_false]

/-- Witness of C3: a diffuse reflection BSDF, starting from the empty map. -/
theorem setup_target_material_diffuse_witness :
    (uniform_sdk DS_INTRINSIC_DF_DIFFUSE_REFLECTION_BSDF).get_call_semantic
        ((uniform_sdk DS_INTRINSIC_DF_DIFFUSE_REFLECTION_BSDF).lookup_call
          "surface.scattering" none) = DS_INTRINSIC_DF_DIFFUSE_REFLECTION_BSDF ∧
    (∃ m : Material Unit Unit,
      setup_target_material (uniform_sdk DS_INTRINSIC_DF_DIFFUSE_REFLECTION_BSDF)
        "diffuse" [] = some m ∧
      m.get "color" = ⟨none, none, "Rgb_fp", "surface.scattering.tint", none⟩) ∧
    setup_target_material (uniform_sdk DS_INTRINSIC_DF_SIMPLE_GLOSSY_BSDF) "diffuse"
      ([] : Material Unit Unit) = none :=
  ⟨rfl,
    (((setup_target_material_diffuse (uniform_sdk DS_INTRINSIC_DF_DIFFUSE_REFLECTION_BSDF)
      ([] : Material Unit Unit)).1 rfl).imp fun _ h => ⟨h.1, h.2.1⟩),
    (setup_target_material_diffuse (uniform_sdk DS_INTRINSIC_DF_SIMPLE_GLOSSY_BSDF)
      ([] : Material Unit Unit)).2 (by decide)⟩

/-- C4: for `diffuse_glossy` the function always returns and always gives `normal`
the path `geometry.normal`; of the five other bake paths a diffuse reflection
BSDF sets only `diffuse_color`, a simple glossy BSDF only `glossy_color` and
`glossy_roughness`, a Fresnel layer all five, and every other semantic none. -/
theorem setup_target_material_diffuse_glossy {C V T : Type} (sdk : Distiller_sdk C V)
    (m0 : Material V T) :
    ∃ m, setup_target_material sdk "diffuse_glossy" m0 = some m ∧
      (m.get "normal").bake_path = "geometry.normal" ∧
      (sdk.get_call_semantic (sdk.lookup_call "surface.scattering" none)
          = DS_INTRINSIC_DF_DIFFUSE_REFLECTION_BSDF →
        ["diffuse_color", "glossy_color", "glossy_roughness", "glossy_weight", "ior"].map
            (fun k => (m.get k).bake_path)
          = ["surface.scattering.tint", "", "", "", ""]) ∧
      (sdk.get_call_semantic (sdk.lookup_call "surface.scattering" none)
          = DS_INTRINSIC_DF_SIMPLE_GLOSSY_BSDF →
        ["diffuse_color", "glossy_color", "glossy_roughness", "glossy_weight", "ior"].map
            (fun k => (m.get k).bake_path)
          = ["", "surface.scattering.tint", "surface.scattering.roughness_u", "", ""]) ∧
      (sdk.get_call_semantic (sdk.lookup_call "surface.scattering" none)
          = DS_INTRINSIC_DF_FRESNEL_LAYER →
        ["diffuse_color", "glossy_color", "glossy_roughness", "glossy_weight", "ior"].map
            (fun k => (m.get k).bake_path)
          = ["surface.scattering.base.tint", "surface.scattering.layer.tint",
              "surface.scattering.layer.roughness_u", "surface.scattering.weight",
              "surface.scattering.ior"]) ∧
      (sdk.get_call_semantic (sdk.lookup_call "surface.scattering" none)
          ≠ DS_INTRINSIC_DF_DIFFUSE_REFLECTION_BSDF →
        sdk.get_call_semantic (sdk.lookup_call "surface.scattering" none)
          ≠ DS_INTRINSIC_DF_SIMPLE_GLOSSY_BSDF →
        sdk.get_call_semantic (sdk.lookup_call "surface.scattering" none)
          ≠ DS_INTRINSIC_DF_FRESNEL_LAYER →
        ["diffuse_color", "glossy_color", "glossy_roughness", "glossy_weight", "ior"].map
            (fun k => (m.get k).bake_path)
          = ["", "", "", "", ""]) := by
  refine ⟨setup_diffuse_glossy
    (sdk.get_call_semantic (sdk.lookup_call "surface.scattering" none)) m0, rfl, ?_⟩
  generalize sdk.get_call_semantic (sdk.lookup_call "surface.scattering" none) = s
  refine ⟨?_, ?_, ?_, ?_, ?_⟩
  · simp [setup_diffuse_glossy]
  · intro hs
    subst hs
    simp [setup_diffuse_glossy, setup_diffuse_glossy_params, setup_diffuse_glossy_switch,
      Material_parameter.mk_typed]
  · intro hs
    subst hs
    simp [setup_diffuse_glossy, setup_diffuse_glossy_params, setup_diffuse_glossy_switch,
      Material_parameter.mk_typed]
  · intro hs
    subst hs
    simp [setup_diffuse_glossy, setup_diffuse_glossy_params, setup_diffuse_glossy_switch,
      Material_parameter.mk_typed]
  · intro h1 h2 h3
    cases s <;>
      first
      | exact absurd rfl h1
      | exact absurd rfl h2
      | exact absurd rfl h3
      | simp [setup_diffuse_glossy, setup_diffuse_glossy_params,
          setup_diffuse_glossy_switch, Material_parameter.mk_typed]

/-- Witness of C4: a Fresnel layer, starting from the empty map. -/
theorem setup_target_material_diffuse_glossy_witness :
    (uniform_sdk DS_INTRINSIC_DF_FRESNEL_LAYER).get_call_semantic
        ((uniform_sdk DS_INTRINSIC_DF_FRESNEL_LAYER).lookup_call "surface.scattering" none)
      = DS_INTRINSIC_DF_FRESNEL_LAYER ∧
    ∃ m : Material Unit Unit,
      setup_target_material (uniform_sdk DS_INTRINSIC_DF_FRESNEL_LAYER) "diffuse_glossy" []
        = some m ∧
      ["diffuse_color", "glossy_color", "glossy_roughness", "glossy_weight", "ior"].map
          (fun k => (m.get k).bake_path)
        = ["surface.scattering.base.tint", "surface.scattering.layer.tint",
            "surface.scattering.layer.roughness_u", "surface.scattering.weight",
            "surface.scattering.ior"] :=
  ⟨rfl,
    (setup_target_material_diffuse_glossy (uniform_sdk DS_INTRINSIC_DF_FRESNEL_LAYER)
      ([] : Material Unit Unit)).imp fun _ h => ⟨h.1, h.2.2.2.2.1 rfl⟩⟩

/-! ## Searching in strings -/

theorem last_match_eq_none (pat : List Char) (s : List Char) (i : Nat) :
    last_match pat s i = none ↔ ¬ pat <:+: s := by
  induction s generalizing i with
  | nil =>
    simp only [last_match, List.infix_nil]
    split <;> simp_all
  | cons c cs ih =>
    simp only [last_match, List.infix_cons_iff, not_or]
    cases h : last_match pat cs (i + 1) with
    | some j =>
      have h' : ¬ ¬ pat <:+: cs := fun hn => by
        rw [(ih (i + 1)).2 hn] at h
        exact absurd h (by simp)
      simp only [reduceCtorEq, false_iff, not_and]
      exact fun _ => h'
    | none =>
      have h' := (ih (i + 1)).1 h
      by_cases hp : pat.isPrefixOf (c :: cs) = true
      · simp only [hp, if_true, reduceCtorEq, false_iff, not_and]
        intro hn
        exact absurd (List.isPrefixOf_iff_prefix.1 hp) hn
      · simp only [hp, if_false, true_iff, Bool.false_eq_true]
        exact ⟨fun hq => hp (List.isPrefixOf_iff_prefix.2 hq), h'⟩

/-- The last occurrence of a non-empty pattern is found where it is. -/
theorem last_match_split (p0 : Char) (pt a b : List Char) (i : Nat)
    (h : ¬ (p0 :: pt) <:+: pt ++ b) :
    last_match (p0 :: pt) (a ++ (p0 :: pt) ++ b) i = some (i + a.length) := by
  induction a generalizing i with
  | nil =>
    simp only [List.nil_append, List.cons_append, last_match, List.length_nil, Nat.add_zero,
      List.append_eq]
    rw [(last_match_eq_none (p0 :: pt) (pt ++ b) (i + 1)).2 h]
    have hp : (p0 :: pt).isPrefixOf (p0 :: (pt ++ b)) = true :=
      List.isPrefixOf_iff_prefix.2 ⟨b, rfl⟩
    simp only [hp, if_true]
  | cons c a ih =>
    simp only [List.cons_append, last_match, List.length_cons, List.append_eq]
    rw [ih (i + 1)]
    simp only [Option.some.injEq]
    omega

/-- A found last occurrence of a non-empty pattern splits the string, and the
pattern does not start again further right. -/
theorem last_match_some (p0 : Char) (pt s : List Char) (i j : Nat)
    (h : last_match (p0 :: pt) s i = some j) :
    ∃ a b, s = a ++ (p0 :: pt) ++ b ∧ j = i + a.length ∧ ¬ (p0 :: pt) <:+: pt ++ b := by
  induction s generalizing i with
  | nil => simp [last_match] at h
  | cons c cs ih =>
    simp only [last_match] at h
    cases h1 : last_match (p0 :: pt) cs (i + 1) with
    | some j' =>
      rw [h1] at h
      simp only [Option.some.injEq] at h
      subst h
      obtain ⟨a, b, hs, hj, hn⟩ := ih (i + 1) h1
      refine ⟨c :: a, b, ?_, ?_, hn⟩
      · rw [hs]; rfl
      · rw [hj, List.length_cons]; omega
    | none =>
      rw [h1] at h
      simp only at h
      split at h
      · rename_i hp
        simp only [Option.some.injEq] at h
        obtain ⟨b, hb⟩ := List.isPrefixOf_iff_prefix.1 hp
        have hcs : cs = pt ++ b := by
          simp only [List.cons_append, List.cons.injEq] at hb
          exact hb.2.symm
        refine ⟨[], b, ?_, ?_, ?_⟩
        · simp only [List.nil_append]; exact hb.symm
        · simp [h]
        · rw [← hcs]
          exact (last_match_eq_none _ _ _).1 h1
      · exact absurd h (by simp)

theorem first_index_not_mem (c : Char) (s : List Char) (i : Nat) (h : c ∉ s) :
    first_index c s i = none := by
  induction s generalizing i with
  | nil => rfl
  | cons x xs ih =>
    simp only [List.mem_cons, not_or] at h
    simp only [first_index, if_neg (Ne.symm h.1)]
    exact ih (i + 1) h.2

theorem first_index_split (c : Char) (a b : List Char) (i : Nat) (h : c ∉ a) :
    first_index c (a ++ c :: b) i = some (i + a.length) := by
  induction a generalizing i with
  | nil => simp [first_index]
  | cons x xs ih =>
    simp only [List.mem_cons, not_or] at h
    simp only [List.cons_append, first_index, if_neg (Ne.symm h.1), List.length_cons,
      List.append_eq]
    rw [ih (i + 1) h.2]
    simp only [Option.some.injEq]
    omega

/-- Two colons in a row do not occur in a colon followed by colon-free text. -/
theorem no_colons_after (b : List Char) (h : ':' ∉ b) :
    ¬ [':', ':'] <:+: [':'] ++ b := by
  rintro ⟨u, v, huv⟩
  cases u with
  | nil =>
    simp only [List.nil_append, List.cons_append, List.cons.injEq, true_and] at huv
    cases b with
    | nil => simp at huv
    | cons x xs =>
      simp only [List.cons.injEq] at huv
      exact h (by rw [← huv.1]; exact List.mem_cons_self _ _)
  | cons x xs =>
    simp only [List.cons_append, List.append_assoc, List.nil_append, List.cons.injEq] at huv
    have : ':' ∈ b := by
      rw [← huv.2]
      simp
    exact h this

theorem rfind_split (x : String) (a b : List Char) (hx : x.data = a ++ [':', ':'] ++ b)
    (h : ¬ [':', ':'] <:+: [':'] ++ b) : rfind x "::" = a.length := by
  unfold rfind
  rw [hx]
  have := last_match_split ':' [':'] a b 0 h
  simp only [Nat.zero_add] at this
  show (last_match [':', ':'] (a ++ [':', ':'] ++ b) 0).getD npos = a.length
  rw [this]
  rfl

theorem rfind_none (x : String) (h : ¬ [':', ':'] <:+: x.data) : rfind x "::" = npos := by
  unfold rfind
  show (last_match [':', ':'] x.data 0).getD npos = npos
  rw [(last_match_eq_none _ _ _).2 h]
  rfl

theorem rfind_some (x : String) (h : [':', ':'] <:+: x.data) :
    ∃ a b, x.data = a ++ [':', ':'] ++ b ∧ rfind x "::" = a.length ∧
      ¬ [':', ':'] <:+: [':'] ++ b := by
  cases h1 : last_match [':', ':'] x.data 0 with
  | none => exact absurd h ((last_match_eq_none _ _ _).1 h1)
  | some j =>
    obtain ⟨a, b, hs, _, hn⟩ := last_match_some ':' [':'] x.data 0 j h1
    exact ⟨a, b, hs, rfind_split x a b hs hn, hn⟩

theorem substr_eq (s : String) (pos n : Nat) (h : pos ≤ s.data.length) :
    substr s pos n = some ⟨(s.data.drop pos).take n⟩ := by
  unfold substr
  rw [if_neg]
  show ¬ pos > s.data.length
  omega

/-! ## `get_module_name` and `get_material_name` -/

theorem size_t_add_small (a b : Nat) (h : a + b < 2 ^ 64) : size_t_add a b = a + b :=
  Nat.mod_eq_of_lt h

theorem size_t_sub_small (a b : Nat) (hb : b ≤ a) (ha : a < 2 ^ 64) :
    size_t_sub a b = a - b := by
  unfold size_t_sub
  have h1 : a + 2 ^ 64 - b = (a - b) + 2 ^ 64 := by omega
  rw [h1, Nat.add_mod_right]
  exact Nat.mod_eq_of_lt (by omega)

theorem length_eq_data (x : String) : x.length = x.data.length := rfl

/-- Both helpers on a string split at its last `::`. -/
theorem names_of_split (x : String) (a b : List Char)
    (hx : x.data = a ++ [':', ':'] ++ b) (hlen : x.length < 2 ^ 64)
    (hn : ¬ [':', ':'] <:+: [':'] ++ b) :
    get_module_name x = some ⟨a⟩ ∧ get_material_name x = some ⟨b⟩ := by
  have hp : rfind x "::" = a.length := rfind_split x a b hx hn
  have hl : x.data.length = a.length + 2 + b.length := by
    rw [hx]; simp only [List.length_append, List.length_cons, List.length_nil]
  have hl' : x.length = a.length + 2 + b.length := hl
  constructor
  · unfold get_module_name
    simp only [hp]
    rw [substr_eq x 0 a.length (by omega), hx]
    simp [List.take_append_of_le_length]
  · unfold get_material_name
    simp only [hp]
    rw [if_neg (by unfold npos; omega), size_t_add_small _ _ (by omega),
      size_t_sub_small _ _ (by omega) hlen,
      substr_eq x (a.length + 2) _ (by omega), hx]
    have hd : List.drop (a.length + 2) (a ++ [':', ':'] ++ b) = b := by
      have : (a ++ [':', ':']).length = a.length + 2 := by simp
      exact List.drop_left' this
    rw [hd, List.take_of_length_le (by omega)]

/-- C10: `get_module_name` and `get_material_name` split a name at its last `::`
without loss, the material part has no `::`; `m ++ "::" ++ n` with colon-free
`n` splits into `m` and `n`; a name without `::` is returned whole by both. -/
theorem module_material_name_split (x : String) (hx : x.length < 2 ^ 64) :
    ("::".data <:+: x.data →
      ∃ mod mat, get_module_name x = some mod ∧ get_material_name x = some mat ∧
        mod ++ "::" ++ mat = x ∧ ¬ "::".data <:+: mat.data) ∧
    (∀ m n : String, x = m ++ "::" ++ n → ':' ∉ n.data →
      get_module_name x = some m ∧ get_material_name x = some n) ∧
    (¬ "::".data <:+: x.data → get_module_name x = some x ∧ get_material_name x = some x) := by
  refine ⟨?_, ?_, ?_⟩
  · intro h
    obtain ⟨a, b, hs, _, hn⟩ := rfind_some x h
    obtain ⟨h1, h2⟩ := names_of_split x a b hs hx hn
    refine ⟨⟨a⟩, ⟨b⟩, h1, h2, ?_, ?_⟩
    · apply String.ext
      simp only [String.data_append]
      exact hs.symm
    · intro hb
      exact hn (hb.trans (List.infix_cons (List.infix_refl b)))
  · intro m n hmn hc
    have hs : x.data = m.data ++ [':', ':'] ++ n.data := by
      rw [hmn]
      simp only [String.data_append]
    exact names_of_split x m.data n.data hs hx (no_colons_after n.data hc)
  · intro h
    have hp : rfind x "::" = npos := rfind_none x h
    constructor
    · unfold get_module_name
      simp only [hp]
      rw [substr_eq x 0 npos (by omega)]
      simp only [List.drop_zero]
      rw [List.take_of_length_le]
      have : x.data.length < 2 ^ 64 := hx
      unfold npos
      omega
    · unfold get_material_name
      simp only [hp, if_true]

/-- Witness of C10: the default material of the compilation example. -/
theorem module_material_name_split_witness :
    "::nvidia::sdk_examples::tutorials::example_compilation".length < 2 ^ 64 ∧
    get_module_name "::nvidia::sdk_examples::tutorials::example_compilation"
      = some "::nvidia::sdk_examples::tutorials" ∧
    get_material_name "::nvidia::sdk_examples::tutorials::example_compilation"
      = some "example_compilation" :=
  ⟨by decide,
    (module_material_name_split "::nvidia::sdk_examples::tutorials::example_compilation"
      (by decide)).2.1 "::nvidia::sdk_examples::tutorials" "example_compilation"
      (by decide) (by decide)⟩

/-! ## `Mdl_helper::qualified_to_simple_name` -/

theorem first_index_paren_none (a b : List Char) (ha : '(' ∉ a) (hb : '(' ∉ b) :
    first_index '(' (a ++ [':', ':'] ++ b) 0 = none := by
  apply first_index_not_mem
  simp only [List.mem_append, List.mem_cons, List.mem_singleton, not_or]
  exact ⟨⟨ha, by decide, by decide, by simp⟩, hb⟩

/-- The simple name of `a ++ "::" ++ b ++ rest`, where `rest` is empty or a
parameter list and neither `a` nor `b` has a parenthesis. -/
theorem simple_name_of_split (x : String) (a b rest : List Char)
    (hx : x.data = a ++ [':', ':'] ++ b ++ rest)
    (ha : '(' ∉ a) (hb : '(' ∉ b) (hc : ':' ∉ b) (hne : b ≠ [])
    (hrest : rest = [] ∨ ∃ args, rest = '(' :: args)
    (hlen : x.length < 2 ^ 64) :
    qualified_to_simple_name x = some ⟨b ++ rest⟩ := by
  have hl : x.data.length = a.length + 2 + b.length + rest.length := by
    rw [hx]; simp only [List.length_append, List.length_cons, List.length_nil]
  have hl' : x.length = a.length + 2 + b.length + rest.length := hl
  have hbl : 0 < b.length := List.length_pos.2 hne
  have h1 : x ≠ "" := by
    intro h
    rw [h] at hl'
    simp at hl'
    omega
  have h2 : x ≠ "::" := by
    intro h
    rw [h] at hl'
    have : "::".length = 2 := by decide
    omega
  have hn := no_colons_after b hc
  have hhead : ∃ n, find_first_of x '(' = n ∧
      (x.data.drop 0).take n = a ++ [':', ':'] ++ b := by
    rcases hrest with hr | ⟨args, hr⟩
    · refine ⟨npos, ?_, ?_⟩
      · unfold find_first_of
        rw [hx, hr, List.append_nil, first_index_paren_none a b ha hb]
        rfl
      · rw [List.drop_zero, List.take_of_length_le, hx, hr, List.append_nil]
        unfold npos
        omega
    · refine ⟨a.length + 2 + b.length, ?_, ?_⟩
      · unfold find_first_of
        have hm : '(' ∉ a ++ [':', ':'] ++ b := by
          simp only [List.mem_append, List.mem_cons, List.mem_singleton, not_or]
          exact ⟨⟨ha, by decide, by decide, by simp⟩, hb⟩
        rw [hx, hr, first_index_split '(' _ args 0 hm]
        simp only [List.length_append, List.length_cons, List.length_nil, Nat.zero_add,
          Option.getD_some]
      · rw [List.drop_zero, hx]
        apply List.take_left'
        simp only [List.length_append, List.length_cons, List.length_nil]
  obtain ⟨n, hn1, hn2⟩ := hhead
  unfold qualified_to_simple_name
  rw [if_neg h1, if_neg h2]
  simp only [hn1]
  rw [substr_eq x 0 n (by omega)]
  simp only [hn2]
  rw [rfind_split ⟨a ++ [':', ':'] ++ b⟩ a b rfl hn, size_t_add_small _ _ (by omega),
    substr_eq x (a.length + 2) npos (by omega)]
  have hd : List.drop (a.length + 2) x.data = b ++ rest := by
    rw [hx, List.append_assoc]
    have : (a ++ [':', ':']).length = a.length + 2 := by simp
    exact List.drop_left' this
  rw [hd, List.take_of_length_le]
  simp only [List.length_append]
  unfold npos
  omega

/-- C8 (as amended): for a prefix `p` without `(` and a non-empty `s` without
`:` and `(`, the simple name of `p ++ "::" ++ s` is `s` and that of
`p ++ "::" ++ s ++ "(" ++ args` is `s ++ "(" ++ args`; the empty string and
`"::"` are returned as they are. -/
theorem qualified_to_simple_name_qualified (p s args : String)
    (hp : '(' ∉ p.data) (hs : s ≠ "") (hc : ':' ∉ s.data) (ho : '(' ∉ s.data)
    (hlen : (p ++ "::" ++ s ++ "(" ++ args).length < 2 ^ 64) :
    qualified_to_simple_name (p ++ "::" ++ s) = some s ∧
    qualified_to_simple_name (p ++ "::" ++ s ++ "(" ++ args) = some (s ++ "(" ++ args) ∧
    qualified_to_simple_name "" = some "" ∧
    qualified_to_simple_name "::" = some "::" := by
  have hne : s.data ≠ [] := fun h => hs (String.ext h)
  have hlen' : (p ++ "::" ++ s ++ "(" ++ args).data.length < 2 ^ 64 := hlen
  simp only [String.data_append, List.length_append] at hlen'
  refine ⟨?_, ?_, by decide, by decide⟩
  · have h := simple_name_of_split (p ++ "::" ++ s) p.data s.data []
      (by simp only [String.data_append, List.append_nil]) hp ho hc hne (Or.inl rfl)
      (by
        show (p ++ "::" ++ s).data.length < 2 ^ 64
        simp only [String.data_append, List.length_append]
        omega)
    rw [h]
    simp only [List.append_nil]
  · have h := simple_name_of_split (p ++ "::" ++ s ++ "(" ++ args) p.data s.data
      ('(' :: args.data)
      (by simp only [String.data_append, List.append_assoc]; rfl) hp ho hc hne
      (Or.inr ⟨args.data, rfl⟩) hlen
    rw [h]
    congr 1
    apply String.ext
    simp only [String.data_append, List.append_assoc]
    rfl

/-- Witness of C8 (as amended): a material and a function with a signature. -/
theorem qualified_to_simple_name_qualified_witness :
    qualified_to_simple_name ("::nvidia::core_definitions" ++ "::" ++ "flex_material")
      = some "flex_material" ∧
    qualified_to_simple_name ("::base" ++ "::" ++ "tint" ++ "(" ++ "::base::color,float)")
      = some ("tint" ++ "(" ++ "::base::color,float)") :=
  ⟨(qualified_to_simple_name_qualified "::nvidia::core_definitions" "flex_material" ""
      (by decide) (by decide) (by decide) (by decide) (by decide)).1,
    (qualified_to_simple_name_qualified "::base" "tint" "::base::color,float)"
      (by decide) (by decide) (by decide) (by decide) (by decide)).2.1⟩

/-- Counterexample to C8 as stated: a prefix that already holds a `(` is not
stripped, `::a(b::c` keeps everything after the first `::`. -/
theorem qualified_to_simple_name_prefix_paren :
    ¬ ∀ p s : String, s ≠ "" → ':' ∉ s.data → '(' ∉ s.data →
      qualified_to_simple_name (p ++ "::" ++ s) = some s := by
  intro h
  have h1 := h "::a(b" "c" (by decide) (by decide) (by decide)
  have h2 : qualified_to_simple_name ("::a(b" ++ "::" ++ "c") = some "a(b::c" := by decide
  rw [h2] at h1
  exact absurd h1 (by decide)

/-- C9 fails on the code: for a name without `::` before its first `(` the
position `npos + 2` wraps around to `1`, and the first character is dropped. -/
theorem qualified_to_simple_name_unqualified :
    qualified_to_simple_name "example_material" = some "xample_material" ∧
    qualified_to_simple_name "f(::base::color)" = some "(::base::color)" ∧
    size_t_add npos 2 = 1 := by
  decide

/-! ## The option loop of `parse_options` -/

theorem drop_of_getElem_some (argv : List String) (i : Nat) (opt : String)
    (h : argv[i]? = some opt) : ∃ rest, argv.drop i = opt :: rest := by
  obtain ⟨hi, hget⟩ := List.getElem?_eq_some.1 h
  exact ⟨argv.drop (i + 1), by rw [← hget]; exact List.drop_eq_getElem_cons hi⟩

theorem getElem_of_drop_cons (argv : List String) (i : Nat) (opt : String) (rest : List String)
    (h : argv.drop i = opt :: rest) (k : Nat) : argv[i + (k + 1)]? = rest[k]? := by
  have h1 : (argv.drop i)[k + 1]? = argv[i + (k + 1)]? := List.getElem?_drop _ _ _
  rw [← h1, h, List.getElem?_cons_succ]

theorem option_arity_of_not_dash (opt : String) (h : ¬ char_at opt 0 = '-') :
    option_arity opt = 0 ∧ opt ≠ "--mdl_path" ∧ opt ≠ "--max_path_length" := by
  have hne : ∀ name : String, char_at name 0 = '-' → opt ≠ name := by
    intro name hn he
    exact h (he ▸ hn)
  refine ⟨?_, hne _ (by decide), hne _ (by decide)⟩
  unfold option_arity
  rw [if_neg (hne _ (by decide)), if_neg (hne _ (by decide)), if_neg (hne _ (by decide)),
    if_neg (hne _ (by decide)), if_neg (hne _ (by decide)), if_neg (hne _ (by decide)),
    if_neg (hne _ (by decide)), if_neg (hne _ (by decide)), if_neg (hne _ (by decide)),
    if_neg (hne _ (by decide))]

/-- The shape shared by the iterations that touch neither `mdl_paths` nor
`ray_depth`. -/
theorem step_goal {F : Type} (lib : Libc F) (opt : String) (rest : List String)
    (i i' k : Nat) (o o' : Example_dxr_options F)
    (ha : option_arity opt = k) (hk : k ≤ rest.length) (hi : i' = i + k)
    (h1 : opt ≠ "--mdl_path") (h2 : opt ≠ "--max_path_length")
    (hm : o'.mdl_paths = o.mdl_paths) (hr : o'.ray_depth = o.ray_depth) :
    option_arity opt ≤ rest.length ∧ i' = i + option_arity opt ∧
      o'.mdl_paths = o.mdl_paths ++ (if opt = "--mdl_path" then rest.take 1 else []) ∧
      o'.ray_depth =
        (if opt = "--max_path_length" then
          (max 2 (min (lib.atoi (rest.headD "")) 100)).toNat
        else o.ray_depth) := by
  rw [ha, if_neg h1, if_neg h2, List.append_nil]
  exact ⟨hk, hi, hm, hr⟩

/-- What an iteration that goes on has done: the option at `i` takes its values
from the arguments that follow, the index moves past them, and only
`--mdl_path` and `--max_path_length` touch `mdl_paths` and `ray_depth`. -/
theorem parse_step_next {F : Type} (lib : Libc F) (argv : List String) (i i' : Nat)
    (o o' : Example_dxr_options F)
    (h : parse_step lib argv i o = Step_result.next i' o') :
    ∃ opt rest, argv.drop i = opt :: rest ∧ option_arity opt ≤ rest.length ∧
      i' = i + option_arity opt ∧
      o'.mdl_paths = o.mdl_paths ++ (if opt = "--mdl_path" then rest.take 1 else []) ∧
      o'.ray_depth =
        (if opt = "--max_path_length" then
          (max 2 (min (lib.atoi (rest.headD "")) 100)).toNat
        else o.ray_depth) := by
  unfold parse_step at h
  cases hopt : argv[i]? with
  | none => rw [hopt] at h; exact absurd h (by simp)
  | some opt =>
    obtain ⟨rest, hdrop⟩ := drop_of_getElem_some argv i opt hopt
    have h1 : argv[i + 1]? = rest[0]? := getElem_of_drop_cons argv i opt rest hdrop 0
    have h2 : argv[i + 2]? = rest[1]? := getElem_of_drop_cons argv i opt rest hdrop 1
    have h3 : argv[i + 3]? = rest[2]? := getElem_of_drop_cons argv i opt rest hdrop 2
    have h4 : argv[i + 4]? = rest[3]? := getElem_of_drop_cons argv i opt rest hdrop 3
    have h5 : argv[i + 5]? = rest[4]? := getElem_of_drop_cons argv i opt rest hdrop 4
    have h6 : argv[i + 6]? = rest[5]? := getElem_of_drop_cons argv i opt rest hdrop 5
    rw [hopt] at h
    simp only [h1, h2, h3, h4, h5, h6] at h
    refine ⟨opt, rest, hdrop, ?_⟩
    clear h1 h2 h3 h4 h5 h6 hopt hdrop
    by_cases c0 : char_at opt 0 = '-'
    swap
    · rw [if_neg c0] at h
      simp only [Step_result.next.injEq] at h
      obtain ⟨rfl, rfl⟩ := h
      obtain ⟨ha, hb, hc⟩ := option_arity_of_not_dash opt c0
      exact step_goal lib opt rest _ _ 0 _ _ ha (Nat.zero_le _) rfl hb hc rfl rfl
    rw [if_pos c0] at h
    clear c0
    by_cases c : opt = "--nocc"
    · rw [if_pos c] at h
      simp only [Step_result.next.injEq] at h
      obtain ⟨rfl, rfl⟩ := h
      subst c
      exact step_goal lib _ rest _ _ 0 _ _ (by decide) (Nat.zero_le _) rfl (by decide)
        (by decide) rfl rfl
    rw [if_neg c] at h
    clear c
    by_cases c : opt = "--nogui"
    · rw [if_pos c] at h
      simp only [Step_result.next.injEq] at h
      obtain ⟨rfl, rfl⟩ := h
      subst c
      exact step_goal lib _ rest _ _ 0 _ _ (by decide) (Nat.zero_le _) rfl (by decide)
        (by decide) rfl rfl
    rw [if_neg c] at h
    clear c
    by_cases c : opt = "--hide_gui"
    · rw [if_pos c] at h
      simp only [Step_result.next.injEq] at h
      obtain ⟨rfl, rfl⟩ := h
      subst c
      exact step_goal lib _ rest _ _ 0 _ _ (by decide) (Nat.zero_le _) rfl (by decide)
        (by decide) rfl rfl
    rw [if_neg c] at h
    clear c
    by_cases c : opt = "--gui_scale" ∧ i < size_t_sub argv.length 1
    · rw [if_pos c] at h
      obtain ⟨rfl, _⟩ := c
      cases rest with
      | nil => exact absurd h (by simp)
      | cons v rest' =>
        simp only [List.getElem?_cons_zero, Step_result.next.injEq] at h
        obtain ⟨rfl, rfl⟩ := h
        exact step_goal lib _ _ _ _ 1 _ _ (by decide) (by simp) rfl (by decide)
          (by decide) rfl rfl
    rw [if_neg c] at h
    clear c
    by_cases c : opt = "--res" ∧ i < size_t_sub argv.length 2
    · rw [if_pos c] at h
      obtain ⟨rfl, _⟩ := c
      rcases rest with _ | ⟨w, _ | ⟨v, rest'⟩⟩
      · exact absurd h (by simp)
      · exact absurd h (by simp)
      · simp only [List.getElem?_cons_zero, List.getElem?_cons_succ,
          Step_result.next.injEq] at h
        obtain ⟨rfl, rfl⟩ := h
        exact step_goal lib _ _ _ _ 2 _ _ (by decide) (by simp) rfl (by decide)
          (by decide) rfl rfl
    rw [if_neg c] at h
    clear c
    by_cases c : opt = "--iterations" ∧ i < size_t_sub argv.length 1
    · rw [if_pos c] at h
      obtain ⟨rfl, _⟩ := c
      cases rest with
      | nil => exact absurd h (by simp)
      | cons v rest' =>
        simp only [List.getElem?_cons_zero, Step_result.next.injEq] at h
        obtain ⟨rfl, rfl⟩ := h
        exact step_goal lib _ _ _ _ 1 _ _ (by decide) (by simp) rfl (by decide)
          (by decide) rfl rfl
    rw [if_neg c] at h
    clear c
    by_cases c : opt = "-o" ∧ i < size_t_sub argv.length 1
    · rw [if_pos c] at h
      obtain ⟨rfl, _⟩ := c
      cases rest with
      | nil => exact absurd h (by simp)
      | cons v rest' =>
        simp only [List.getElem?_cons_zero, Step_result.next.injEq] at h
        obtain ⟨rfl, rfl⟩ := h
        exact step_goal lib _ _ _ _ 1 _ _ (by decide) (by simp) rfl (by decide)
          (by decide) rfl rfl
    rw [if_neg c] at h
    clear c
    by_cases c : opt = "--hdr" ∧ i < size_t_sub argv.length 1
    · rw [if_pos c] at h
      obtain ⟨rfl, _⟩ := c
      cases rest with
      | nil => exact absurd h (by simp)
      | cons v rest' =>
        simp only [List.getElem?_cons_zero, Step_result.next.injEq] at h
        obtain ⟨rfl, rfl⟩ := h
        exact step_goal lib _ _ _ _ 1 _ _ (by decide) (by simp) rfl (by decide)
          (by decide) rfl rfl
    rw [if_neg c] at h
    clear c
    by_cases c : opt = "--hdr_scale" ∧ i < size_t_sub argv.length 1
    · rw [if_pos c] at h
      obtain ⟨rfl, _⟩ := c
      cases rest with
      | nil => exact absurd h (by simp)
      | cons v rest' =>
        simp only [List.getElem?_cons_zero, Step_result.next.injEq] at h
        obtain ⟨rfl, rfl⟩ := h
        exact step_goal lib _ _ _ _ 1 _ _ (by decide) (by simp) rfl (by decide)
          (by decide) rfl rfl
    rw [if_neg c] at h
    clear c
    by_cases c : opt = "--mat" ∧ i < size_t_sub argv.length 1
    · rw [if_pos c] at h
      obtain ⟨rfl, _⟩ := c
      cases rest with
      | nil => exact absurd h (by simp)
      | cons v rest' =>
        simp only [List.getElem?_cons_zero, Step_result.next.injEq] at h
        obtain ⟨rfl, rfl⟩ := h
        exact step_goal lib _ _ _ _ 1 _ _ (by decide) (by simp) rfl (by decide)
          (by decide) rfl rfl
    rw [if_neg c] at h
    clear c
    by_cases c : opt = "--no_firefly_clamp"
    · rw [if_pos c] at h
      simp only [Step_result.next.injEq] at h
      obtain ⟨rfl, rfl⟩ := h
      subst c
      exact step_goal lib _ rest _ _ 0 _ _ (by decide) (Nat.zero_le _) rfl (by decide)
        (by decide) rfl rfl
    rw [if_neg c] at h
    clear c
    by_cases c : opt = "-h" ∨ opt = "--help"
    · rw [if_pos c] at h
      exact absurd h (by simp)
    rw [if_neg c] at h
    clear c
    by_cases c : opt = "-l" ∧ i < size_t_sub argv.length 6
    · rw [if_pos c] at h
      obtain ⟨rfl, _⟩ := c
      rcases rest with _ | ⟨x, _ | ⟨y, _ | ⟨z, _ | ⟨r, _ | ⟨g, _ | ⟨b, rest'⟩⟩⟩⟩⟩⟩
      · exact absurd h (by simp)
      · exact absurd h (by simp)
      · exact absurd h (by simp)
      · exact absurd h (by simp)
      · exact absurd h (by simp)
      · exact absurd h (by simp)
      · simp only [List.getElem?_cons_zero, List.getElem?_cons_succ,
          Step_result.next.injEq] at h
        obtain ⟨rfl, rfl⟩ := h
        exact step_goal lib _ _ _ _ 6 _ _ (by decide) (by simp) rfl (by decide)
          (by decide) rfl rfl
    rw [if_neg c] at h
    clear c
    by_cases c : opt = "--max_path_length" ∧ i < size_t_sub argv.length 1
    · rw [if_pos c] at h
      obtain ⟨rfl, _⟩ := c
      cases rest with
      | nil => exact absurd h (by simp)
      | cons v rest' =>
        simp only [List.getElem?_cons_zero, Step_result.next.injEq] at h
        obtain ⟨rfl, rfl⟩ := h
        rw [if_neg (by decide), if_pos rfl, List.append_nil]
        exact ⟨by simp [show option_arity "--max_path_length" = 1 from by decide],
          by rw [show option_arity "--max_path_length" = 1 from by decide], rfl, rfl⟩
    rw [if_neg c] at h
    clear c
    by_cases c : opt = "--mdl_path" ∧ i < size_t_sub argv.length 1
    · rw [if_pos c] at h
      obtain ⟨rfl, _⟩ := c
      cases rest with
      | nil => exact absurd h (by simp)
      | cons v rest' =>
        simp only [List.getElem?_cons_zero, Step_result.next.injEq] at h
        obtain ⟨rfl, rfl⟩ := h
        rw [if_pos rfl, if_neg (by decide)]
        exact ⟨by simp [show option_arity "--mdl_path" = 1 from by decide],
          by rw [show option_arity "--mdl_path" = 1 from by decide], rfl, rfl⟩
    rw [if_neg c] at h
    exact absurd h (by simp)

/-! ## The command line as the usage text describes it -/

theorem scan_values_zero (name : String) (c : Bool) (l : List String) :
    scan_values name 0 c l = scan_values name 0 false l := by
  cases l <;> rfl

theorem scan_values_skip (name : String) (k : Nat) (c : Bool) (l : List String)
    (hk : k ≤ l.length) :
    scan_values name k c l
      = (if c then l.take k else []) ++ scan_values name 0 false (l.drop k) := by
  induction k generalizing l with
  | zero =>
    rw [scan_values_zero]
    cases c <;> simp
  | succ k ih =>
    cases l with
    | nil => simp at hk
    | cons v rest =>
      simp only [List.length_cons, Nat.add_le_add_iff_right] at hk
      simp only [scan_values, List.take_succ_cons, List.drop_succ_cons]
      rw [ih rest hk]
      cases c <;> simp

theorem option_values_cons (name opt : String) (rest : List String)
    (hk : option_arity opt ≤ rest.length) :
    option_values name (opt :: rest)
      = (if opt = name then rest.take (option_arity opt) else [])
        ++ option_values name (rest.drop (option_arity opt)) := by
  unfold option_values
  simp only [scan_values]
  rw [scan_values_skip name _ _ rest hk]
  by_cases h : opt = name <;> simp [h]

/-- The loop, when it runs to its end, appends the values of `--mdl_path` to
`mdl_paths` in command-line order and leaves in `ray_depth` the clamped value of
the last `--max_path_length`. -/
theorem parse_loop_finished {F : Type} (lib : Libc F) (argv : List String) (fuel i : Nat)
    (o o' : Example_dxr_options F) (hi : i ≤ argv.length)
    (h : parse_loop lib argv fuel i o = Loop_result.finished o') :
    o'.mdl_paths = o.mdl_paths ++ option_values "--mdl_path" (argv.drop i) ∧
    o'.ray_depth =
      (option_values "--max_path_length" (argv.drop i)).foldl
        (fun _ s => (max 2 (min (lib.atoi s) 100)).toNat) o.ray_depth := by
  induction fuel generalizing i o with
  | zero =>
    unfold parse_loop at h
    split at h
    · exact absurd h (by simp)
    · rename_i hlt
      simp only [Loop_result.finished.injEq] at h
      subst h
      have : argv.drop i = [] := List.drop_eq_nil_of_le (by omega)
      rw [this]
      simp [option_values, scan_values]
  | succ fuel ih =>
    unfold parse_loop at h
    split at h
    · cases hs : parse_step lib argv i o with
      | next i' o1 =>
        rw [hs] at h
        simp only at h
        obtain ⟨opt, rest, hdrop, hk, hi', hm, hr⟩ := parse_step_next lib argv i i' o o1 hs
        have hlen : argv.length = i + (rest.length + 1) := by
          have := congrArg List.length hdrop
          simp only [List.length_drop, List.length_cons] at this
          omega
        have hdrop' : argv.drop (i' + 1) = rest.drop (option_arity opt) := by
          have h1 : argv.drop (i' + 1) = (argv.drop i).drop (option_arity opt + 1) := by
            rw [List.drop_drop, hi', Nat.add_assoc]
          rw [h1, hdrop, List.drop_succ_cons]
        obtain ⟨ihm, ihr⟩ := ih (i' + 1) o1 (by omega) h
        rw [hdrop'] at ihm ihr
        rw [hdrop, option_values_cons _ _ _ hk, option_values_cons _ _ _ hk]
        constructor
        · rw [ihm, hm, List.append_assoc]
          by_cases hc : opt = "--mdl_path"
          · subst hc
            simp only [if_true]
            rw [show option_arity "--mdl_path" = 1 from by decide]
          · simp only [hc, if_false]
        · rw [ihr, hr, List.foldl_append]
          by_cases hc : opt = "--max_path_length"
          · subst hc
            simp only [if_true]
            rw [show option_arity "--max_path_length" = 1 from by decide] at hk ⊢
            cases rest with
            | nil => exact absurd hk (by decide)
            | cons v rest' => rfl
          · simp only [hc, if_false, List.foldl_nil]
      | stop code o1 =>
        rw [hs] at h
        exact absurd h (by simp)
      | out_of_range =>
        rw [hs] at h
        exact absurd h (by simp)
    · rename_i hlt
      simp only [Loop_result.finished.injEq] at h
      subst h
      have : argv.drop i = [] := List.drop_eq_nil_of_le (by omega)
      rw [this]
      simp [option_values, scan_values]

/-- The fuel `parse_options` gives the loop is never used up. -/
theorem parse_loop_fuel {F : Type} (lib : Libc F) (argv : List String) (fuel i : Nat)
    (o : Example_dxr_options F) (hf : argv.length ≤ fuel + i) :
    parse_loop lib argv fuel i o ≠ Loop_result.out_of_fuel := by
  induction fuel generalizing i o with
  | zero =>
    unfold parse_loop
    rw [if_neg (by omega)]
    simp
  | succ fuel ih =>
    unfold parse_loop
    split
    · cases hs : parse_step lib argv i o with
      | next i' o1 =>
        simp only
        obtain ⟨opt, rest, _, _, hi', _, _⟩ := parse_step_next lib argv i i' o o1 hs
        exact ih (i' + 1) o1 (by omega)
      | stop code o1 => simp
      | out_of_range => simp
    · simp

theorem substr_zero (s : String) (n : Nat) : substr s 0 n = some ⟨s.data.take n⟩ := by
  rw [substr_eq s 0 n (Nat.zero_le _), List.drop_zero]

/-- The part of `parse_options` after the loop always goes through: it keeps the
option values and adds the scene folder as the last search path. -/
theorem resolve_scene_spec {F : Type} (windows : Bool) (cwd : String)
    (o : Example_dxr_options F) :
    ∃ o', resolve_scene windows cwd o = some o' ∧
      o'.mdl_paths = o.mdl_paths ++ [o'.scene_directory] ∧ o'.ray_depth = o.ray_depth ∧
      (is_absolute_path windows o.scene = true →
        o'.scene = o.scene ∧
        o'.scene_directory = ⟨o.scene.data.take (find_last_of o.scene '/')⟩) := by
  unfold resolve_scene
  simp only [substr_zero]
  by_cases ha : is_absolute_path windows o.scene = true
  · rw [if_neg (by simpa using ha)]
    exact ⟨_, rfl, rfl, rfl, fun _ => ⟨rfl, rfl⟩⟩
  · rw [if_pos (by simpa using ha)]
    exact ⟨_, rfl, rfl, rfl, fun h => absurd h ha⟩

/-! ## `parse_options` -/

theorem foldl_last {α : Type} (f : String → α) (l : List String) (d : α) (s : String)
    (h : l.getLast? = some s) : l.foldl (fun _ x => f x) d = f s := by
  induction l generalizing d with
  | nil => simp at h
  | cons a l ih =>
    cases l with
    | nil =>
      simp only [List.getLast?_singleton, Option.some.injEq] at h
      subst h
      rfl
    | cons b l' =>
      rw [List.getLast?_cons_cons] at h
      exact ih (f a) h

theorem clamp_bounds (v : Int) :
    ((max 2 (min v 100)).toNat : Int) = max 2 (min v 100) ∧
    2 ≤ (max 2 (min v 100)).toNat ∧ (max 2 (min v 100)).toNat ≤ 100 ∧
    (v = 0 → (max 2 (min v 100)).toNat = 2) := by
  have h1 : (2 : Int) ≤ max 2 (min v 100) := le_max_left _ _
  have h2 : max 2 (min v 100) ≤ (100 : Int) := max_le (by decide) (min_le_right _ _)
  refine ⟨Int.toNat_of_nonneg (by omega), by omega, by omega, ?_⟩
  intro hv
  subst hv
  decide

/-- A successful `parse_options` is a loop that ran to its end followed by the
scene resolution. -/
theorem parse_options_returned_true {F : Type} (lib : Libc F) (windows : Bool)
    (cwd : String) (argv : List String) (o o' : Example_dxr_options F) (code : Nat)
    (h : parse_options lib windows cwd argv o = Parse_result.returned true code o') :
    ∃ o1, parse_loop lib argv argv.length 0 o = Loop_result.finished o1 ∧
      resolve_scene windows cwd o1 = some o' ∧ code = EXIT_SUCCESS := by
  unfold parse_options at h
  cases hl : parse_loop lib argv argv.length 0 o with
  | finished o1 =>
    rw [hl] at h
    simp only at h
    cases hr : resolve_scene windows cwd o1 with
    | none => rw [hr] at h; exact absurd h (by simp)
    | some o2 =>
      rw [hr] at h
      simp only [Parse_result.returned.injEq, true_and] at h
      obtain ⟨h1, h2⟩ := h
      subst h1 h2
      exact ⟨o1, rfl, hr, rfl⟩
  | stopped c o1 => rw [hl] at h; exact absurd h (by simp)
  | out_of_range => rw [hl] at h; exact absurd h (by simp)
  | out_of_fuel => rw [hl] at h; exact absurd h (by simp)

/-- An iteration on `--max_path_length` followed by a value stores the clamped
value of `atoi`. -/
theorem parse_step_max_path_length {F : Type} (lib : Libc F)
    (argv : List String) (o : Example_dxr_options F) (i : Nat) (s : String)
    (hlen : argv.length < 2 ^ 64) (hi : argv[i]? = some "--max_path_length")
    (hs : argv[i + 1]? = some s) :
      parse_step lib argv i o = Step_result.next (i + 1)
        { o with ray_depth := (max 2 (min (lib.atoi s) 100)).toNat } := by
  have hlt : i + 1 < argv.length := (List.getElem?_eq_some.1 hs).1
  have hg : i < size_t_sub argv.length 1 := by
    rw [size_t_sub_small _ _ (by omega) hlen]
    omega
  unfold parse_step
  rw [hi]
  simp only []
  rw [if_pos (by decide)]
  rw [if_neg (by decide), if_neg (by decide), if_neg (by decide)]
  rw [if_neg (fun h => absurd h.1 (by decide))]
  rw [if_neg (fun h => absurd h.1 (by decide))]
  rw [if_neg (fun h => absurd h.1 (by decide))]
  rw [if_neg (fun h => absurd h.1 (by decide))]
  rw [if_neg (fun h => absurd h.1 (by decide))]
  rw [if_neg (fun h => absurd h.1 (by decide))]
  rw [if_neg (fun h => absurd h.1 (by decide))]
  rw [if_neg (by decide)]
  rw [if_neg (by decide)]
  rw [if_neg (fun h => absurd h.1 (by decide))]
  rw [if_pos ⟨trivial, hg⟩, hs]

/-- The loop on the command line `--max_path_length <s>` alone. -/
theorem parse_loop_max_path_length {F : Type} (lib : Libc F) (o : Example_dxr_options F)
    (s : String) :
    parse_loop lib ["--max_path_length", s] ["--max_path_length", s].length 0 o
      = Loop_result.finished
          { o with ray_depth := (max 2 (min (lib.atoi s) 100)).toNat } := by
  have hstep : parse_step lib ["--max_path_length", s] 0 o = Step_result.next (0 + 1)
      { o with ray_depth := (max 2 (min (lib.atoi s) 100)).toNat } :=
    parse_step_max_path_length lib ["--max_path_length", s] o 0 s
      (by simp only [List.length_cons, List.length_nil]; omega) rfl rfl
  have hlen : ["--max_path_length", s].length = 1 + 1 := by
    simp only [List.length_cons, List.length_nil]
  rw [hlen, parse_loop.eq_2, if_pos (by simp), hstep]
  simp only []
  rw [parse_loop.eq_2, if_neg (by simp)]

/-- A loop that ran to its end and a resolved scene make `parse_options` return
`true` with `EXIT_SUCCESS`. -/
theorem parse_options_of_finished {F : Type} (lib : Libc F) (windows : Bool)
    (cwd : String) (argv : List String) (o o1 o2 : Example_dxr_options F)
    (h1 : parse_loop lib argv argv.length 0 o = Loop_result.finished o1)
    (h2 : resolve_scene windows cwd o1 = some o2) :
    parse_options lib windows cwd argv o = Parse_result.returned true EXIT_SUCCESS o2 := by
  unfold parse_options
  rw [h1]
  simp only []
  rw [h2]

/-- C5: `--max_path_length <num>` stores `max(2, min(atoi(num), 100))` in
`ray_depth`: each time the option is met, and hence, after a successful
`parse_options`, for the last such option on the command line; the stored value
lies in `2..100`, and a value that `atoi` reads as `0` gives `2`. -/
theorem max_path_length_clamped {F : Type} (lib : Libc F) (windows : Bool) (cwd : String)
    (argv : List String) (o : Example_dxr_options F) :
    (∀ i s, argv.length < 2 ^ 64 → argv[i]? = some "--max_path_length" →
      argv[i + 1]? = some s →
      parse_step lib argv i o = Step_result.next (i + 1)
        { o with ray_depth := (max 2 (min (lib.atoi s) 100)).toNat }) ∧
    (∀ code o', parse_options lib windows cwd argv o = Parse_result.returned true code o' →
      ∀ s, (option_values "--max_path_length" argv).getLast? = some s →
        (o'.ray_depth : Int) = max 2 (min (lib.atoi s) 100) ∧
        2 ≤ o'.ray_depth ∧ o'.ray_depth ≤ 100 ∧ (lib.atoi s = 0 → o'.ray_depth = 2)) ∧
    (∀ s, ∃ o', parse_options lib windows cwd ["--max_path_length", s] o
        = Parse_result.returned true EXIT_SUCCESS o' ∧
      (o'.ray_depth : Int) = max 2 (min (lib.atoi s) 100)) := by
  refine ⟨?_, ?_, ?_⟩
  · intro i s hlen hi hs
    exact parse_step_max_path_length lib argv o i s hlen hi hs
  · intro code o' h s hs
    obtain ⟨o1, hl, hr, _⟩ := parse_options_returned_true lib windows cwd argv o o' code h
    obtain ⟨_, hd⟩ := parse_loop_finished lib argv argv.length 0 o o1 (Nat.zero_le _) hl
    obtain ⟨o2, hr2, _, hray, _⟩ := resolve_scene_spec windows cwd o1
    rw [hr] at hr2
    simp only [Option.some.injEq] at hr2
    subst hr2
    rw [List.drop_zero, foldl_last _ _ _ s hs] at hd
    rw [hray, hd]
    exact clamp_bounds (lib.atoi s)
  · intro s
    obtain ⟨o2, hr2, _, hray, _⟩ := resolve_scene_spec windows cwd
      { o with ray_depth := (max 2 (min (lib.atoi s) 100)).toNat }
    refine ⟨o2, ?_, ?_⟩
    · exact parse_options_of_finished lib windows cwd _ o _ o2
        (parse_loop_max_path_length lib o s) hr2
    · rw [hray]
      exact (clamp_bounds (lib.atoi s)).1

/-- Witness of C5: the option with the value `250` between two other options. -/
theorem max_path_length_clamped_witness :
    parse_options sample_libc true "C:/work" sample_argv sample_options
      = Parse_result.returned true EXIT_SUCCESS sample_parsed ∧
    (option_values "--max_path_length" sample_argv).getLast? = some "250" ∧
    (sample_parsed.ray_depth : Int) = max 2 (min (sample_libc.atoi "250") 100) :=
  ⟨by decide, by decide,
    ((max_path_length_clamped sample_libc true "C:/work" sample_argv sample_options).2.1
      EXIT_SUCCESS sample_parsed (by decide) "250" (by decide)).1⟩

/-- C6 fails on the code: `argc - 2` and `argc - 6` are computed in `size_t`, so
with fewer arguments than that the guards of `--res` and `-l` hold and `argv` is
read beyond its end instead of the option being reported; the one-valued
options such as `--hdr` are reported. -/
theorem parse_options_res_alone {F : Type} (lib : Libc F) (windows : Bool) (cwd : String)
    (o : Example_dxr_options F) :
    parse_options lib windows cwd ["--res"] o = Parse_result.out_of_range ∧
    parse_options lib windows cwd ["-l", "1", "2", "3"] o = Parse_result.out_of_range ∧
    size_t_sub 1 2 = 2 ^ 64 - 1 ∧ size_t_sub 4 6 = 2 ^ 64 - 2 ∧
    parse_options lib windows cwd ["--hdr"] o = Parse_result.returned false EXIT_FAILURE o :=
  ⟨rfl, rfl, by decide, by decide, rfl⟩

/-- The text before the last `/` of a string that has one. -/
theorem take_find_last_of (s : String) (h : '/' ∈ s.data) :
    ∃ b : List Char, s.data = s.data.take (find_last_of s '/') ++ ['/'] ++ b ∧ '/' ∉ b := by
  have hin : ['/'] <:+: s.data := by
    obtain ⟨u, v, huv⟩ := List.append_of_mem h
    exact ⟨u, v, by rw [huv]; simp⟩
  cases h1 : last_match ['/'] s.data 0 with
  | none => exact absurd hin ((last_match_eq_none _ _ _).1 h1)
  | some j =>
    obtain ⟨a, b, hs, hj, hn⟩ := last_match_some '/' [] s.data 0 j h1
    have hf : find_last_of s '/' = a.length := by
      unfold find_last_of
      rw [h1, hj]
      simp
    refine ⟨b, ?_, ?_⟩
    · rw [hf]
      have ht : s.data.take a.length = a := by
        rw [hs, List.append_assoc]
        exact List.take_left _ _
      rw [ht]
      exact hs
    · intro hb
      obtain ⟨u, v, huv⟩ := List.append_of_mem hb
      exact hn ⟨u, v, by rw [huv]; simp⟩

/-- The model of `parse_options` always ends in a return or in an out-of-bounds
read of `argv`: the fuel suffices and `substr` does not throw. -/
theorem parse_options_total {F : Type} (lib : Libc F) (windows : Bool) (cwd : String)
    (argv : List String) (o : Example_dxr_options F) :
    parse_options lib windows cwd argv o ≠ Parse_result.out_of_fuel ∧
    parse_options lib windows cwd argv o ≠ Parse_result.threw := by
  unfold parse_options
  cases hl : parse_loop lib argv argv.length 0 o with
  | finished o1 =>
    obtain ⟨o2, hr, _⟩ := resolve_scene_spec windows cwd o1
    simp only [hr]
    exact ⟨by simp, by simp⟩
  | stopped c o1 => exact ⟨by simp, by simp⟩
  | out_of_range => exact ⟨by simp, by simp⟩
  | out_of_fuel => exact absurd hl (parse_loop_fuel lib argv argv.length 0 o (by omega))

/-- What the code does keep of the scene folder rule: a successful
`parse_options` leaves in `mdl_paths` the former entries (none when it was
empty), the values of the `--mdl_path` options in command-line order and, last,
`scene_directory`; and when the scene path left by the arguments is absolute and
holds a `/`, it is `scene_directory`, a `/` and a file part without `/`. -/
theorem parse_options_mdl_paths {F : Type} (lib : Libc F) (windows : Bool) (cwd : String)
    (argv : List String) (o o' : Example_dxr_options F) (code : Nat)
    (h : parse_options lib windows cwd argv o = Parse_result.returned true code o') :
    code = EXIT_SUCCESS ∧
    o'.mdl_paths = o.mdl_paths ++ option_values "--mdl_path" argv ++ [o'.scene_directory] ∧
    (o.mdl_paths = [] →
      o'.mdl_paths = option_values "--mdl_path" argv ++ [o'.scene_directory]) ∧
    ∃ o1, parse_loop lib argv argv.length 0 o = Loop_result.finished o1 ∧
      (is_absolute_path windows o1.scene = true → '/' ∈ o1.scene.data →
        o'.scene = o1.scene ∧
        ∃ file : String, o1.scene = o'.scene_directory ++ "/" ++ file ∧ '/' ∉ file.data) := by
  obtain ⟨o1, hl, hr, hcode⟩ := parse_options_returned_true lib windows cwd argv o o' code h
  obtain ⟨hm, _⟩ := parse_loop_finished lib argv argv.length 0 o o1 (Nat.zero_le _) hl
  obtain ⟨o2, hr2, hm2, _, habs⟩ := resolve_scene_spec windows cwd o1
  rw [hr] at hr2
  simp only [Option.some.injEq] at hr2
  subst hr2
  rw [List.drop_zero] at hm
  have hall : o'.mdl_paths
      = o.mdl_paths ++ option_values "--mdl_path" argv ++ [o'.scene_directory] := by
    rw [hm2, hm]
  refine ⟨hcode, hall, ?_, o1, hl, ?_⟩
  · intro h0
    rw [hall, h0, List.nil_append]
  · intro ha hs
    obtain ⟨hscene, hdir⟩ := habs ha
    obtain ⟨b, hb, hnb⟩ := take_find_last_of o1.scene hs
    refine ⟨hscene, ⟨b⟩, ?_, hnb⟩
    apply String.ext
    rw [hdir]
    simp only [String.data_append]
    exact hb

/-- An instance of `parse_options_mdl_paths`: one `--mdl_path` among other
options, the default scene. -/
theorem parse_options_mdl_paths_witness :
    parse_options sample_libc true "C:/work" sample_argv sample_options
      = Parse_result.returned true EXIT_SUCCESS sample_parsed ∧
    sample_options.mdl_paths = [] ∧
    sample_parsed.mdl_paths
      = option_values "--mdl_path" sample_argv ++ [sample_parsed.scene_directory] :=
  ⟨by decide, rfl,
    (parse_options_mdl_paths sample_libc true "C:/work" sample_argv sample_options
      sample_parsed EXIT_SUCCESS (by decide)).2.2.1 rfl⟩

/-- C7 fails on the code: the scene path `C:scene.gltf` passes `is_absolute_path`
and has no `/`, so `find_last_of` gives `npos`; the absolute branch takes
`substr(0, npos)` without the test `pos != npos` of the relative branch, and
`scene_directory`, the entry added to `mdl_paths`, is the scene file itself and
not the scene path up to a last `/`. -/
theorem parse_options_scene_without_slash :
    parse_options sample_libc true "C:/work" ["C:scene.gltf"] sample_options
      = Parse_result.returned true EXIT_SUCCESS sample_flat ∧
    is_absolute_path true sample_flat.scene = true ∧
    find_last_of sample_flat.scene '/' = npos ∧
    sample_flat.scene_directory = sample_flat.scene ∧
    sample_flat.mdl_paths = [sample_flat.scene] ∧
    ¬ ∃ file : String, sample_flat.scene = sample_flat.scene_directory ++ "/" ++ file := by
  refine ⟨by decide, by decide, by decide, by decide, by decide, ?_⟩
  rintro ⟨file, hf⟩
  have h1 : sample_flat.scene.data.length = 12 := by decide
  have h2 : sample_flat.scene_directory.data.length = 12 := by decide
  have h3 : "/".data.length = 1 := by decide
  have hlen : (sample_flat.scene_directory ++ "/" ++ file).data.length
      = sample_flat.scene.data.length := by rw [← hf]
  rw [String.data_append, String.data_append, List.length_append, List.length_append,
    h1, h2, h3] at hlen
  omega

/-! ## `mdle_to_db_name` -/

theorem replace_char_append (s t : String) (a b : Char) :
    replace_char (s ++ t) a b = replace_char s a b ++ replace_char t a b := by
  apply String.ext
  simp only [replace_char, String.data_append, List.map_append]

theorem not_mem_replace_char (s : String) (a b : Char) (h : b ≠ a) :
    a ∉ (replace_char s a b).data := by
  simp only [replace_char, List.mem_map, not_exists, not_and]
  intro c _ hc
  by_cases hca : c = a
  · rw [if_pos hca] at hc
    exact h hc
  · rw [if_neg hca] at hc
    exact hca hc

/-- C11: the database name of an MDLE file begins with `mdle::`, ends with
`::main` and holds no backslash; it is `mdle::`, on Windows followed by `/`, then
the path with every backslash replaced by `/`, then `::main`. -/
theorem mdle_to_db_name_spec (windows : Bool) (mdle_path : String) :
    "mdle::".data <+: (mdle_to_db_name windows mdle_path).data ∧
    "::main".data <:+ (mdle_to_db_name windows mdle_path).data ∧
    backslash ∉ (mdle_to_db_name windows mdle_path).data ∧
    mdle_to_db_name false mdle_path
      = "mdle::" ++ replace_char mdle_path backslash '/' ++ "::main" ∧
    mdle_to_db_name true mdle_path
      = "mdle::/" ++ replace_char mdle_path backslash '/' ++ "::main" := by
  have hf : mdle_to_db_name false mdle_path
      = "mdle::" ++ replace_char mdle_path backslash '/' ++ "::main" := by
    unfold mdle_to_db_name
    simp only [Bool.false_eq_true, if_false, replace_char_append]
    rfl
  have ht : mdle_to_db_name true mdle_path
      = "mdle::/" ++ replace_char mdle_path backslash '/' ++ "::main" := by
    unfold mdle_to_db_name
    simp only [if_true, replace_char_append]
    rfl
  refine ⟨?_, ?_, ?_, hf, ht⟩
  · cases windows with
    | false =>
      rw [hf]
      simp only [String.data_append, List.append_assoc]
      exact List.prefix_append _ _
    | true =>
      rw [ht]
      simp only [String.data_append, List.append_assoc]
      exact ⟨'/' :: ((replace_char mdle_path backslash '/').data ++ "::main".data), rfl⟩
  · cases windows with
    | false =>
      rw [hf]
      simp only [String.data_append]
      exact List.suffix_append _ _
    | true =>
      rw [ht]
      simp only [String.data_append]
      exact List.suffix_append _ _
  · unfold mdle_to_db_name
    exact not_mem_replace_char _ backslash '/' (by decide)

end Mdl
